import Mathlib

/-!
# apifox-import: a verification development of `main.go`

The program reads an OpenAPI document from disk and posts it, wrapped in a
JSON payload, to the Apifox import endpoint.  This file embeds `main.go` in
Lean and proves properties of `request`, `read` and `main`.

Conventions of the embedding

* A Go `string` / `[]byte` is a sequence of bytes, `Bytes := List Nat`
  (every element of a real Go string is below 256).
* A Go `error` is a `GoError`: its message and, for errors made with the
  `%w` verb, the error it wraps.
* The outside world (file system, URL validation of `http.NewRequest`, the
  HTTP client, build information) is a `World` record of functions.  The
  client call `http.DefaultClient.Do` is one step of the program; the round
  trips that the client makes inside that call, over the transport behind
  it, are modelled by `clientDo` on a `Network`.
* Effects are recorded as a trace of `Event`s, in program order.
* The standard-library routines the program calls (`fmt.Sprintf`,
  `fmt.Errorf`, `json.Marshal`, `utf8.DecodeRuneInString`,
  `strconv.AppendInt`, `http.Header.Set`) are modelled after the Go
  standard library, restricted to the types and verbs this program uses.
-/

set_option maxRecDepth 20000

namespace ApifoxImport

/-! ## Bytes, errors, formatting -/

/-- A Go string or byte slice. -/
abbrev Bytes := List Nat

/-- The bytes of an ASCII string literal of the source. -/
def lit (s : String) : Bytes := s.data.map Char.toNat

/-- A Go error value: `new` is an error with just a message, `wrap` is the
`*fmt.wrapError` made by `fmt.Errorf` with a `%w` operand. -/
inductive GoError where
  | new (msg : Bytes)
  | wrap (msg : Bytes) (err : GoError)
  deriving DecidableEq, Repr

/-- The method `Error()` of an error. -/
def GoError.Error : GoError → Bytes
  | .new msg => msg
  | .wrap msg _ => msg

/-- The method `Unwrap()` of an error (`errors.Unwrap`). -/
def GoError.Unwrap : GoError → Option GoError
  | .new _ => none
  | .wrap _ err => some err

/-- An operand of a formatting call: a string (or byte slice) or an error. -/
inductive Arg where
  | str (s : Bytes)
  | err (e : GoError)
  deriving DecidableEq, Repr

/-- What `%s`, `%w` print for an operand: the bytes of a string, `Error()` of
an error. -/
def Arg.text : Arg → Bytes
  | .str s => s
  | .err e => e.Error

/-- Model of `fmt.Sprintf` for the verbs the program uses: `%s` and `%w`
consume the next operand and print it verbatim, `%%` prints a percent sign,
every other byte of the format is copied.  (37 is `%`, 115 is `s`, 119 is
`w`.)  Operands are never re-scanned for verbs. -/
def sprintf : Bytes → List Arg → Bytes
  | [], _ => []
  | 37 :: 37 :: fmt, args => 37 :: sprintf fmt args
  | 37 :: 115 :: fmt, a :: args => a.text ++ sprintf fmt args
  | 37 :: 119 :: fmt, a :: args => a.text ++ sprintf fmt args
  | c :: fmt, args => c :: sprintf fmt args

/-- The operand that a `%w` verb of the format refers to, if it is an error. -/
def wrappedOperand : Bytes → List Arg → Option GoError
  | [], _ => none
  | 37 :: 37 :: fmt, args => wrappedOperand fmt args
  | 37 :: 115 :: fmt, _ :: args => wrappedOperand fmt args
  | 37 :: 119 :: _, .err e :: _ => some e
  | 37 :: 119 :: fmt, _ :: args => wrappedOperand fmt args
  | _ :: fmt, args => wrappedOperand fmt args

/-- Model of `fmt.Errorf`: the message is that of `Sprintf`; with a `%w` verb
on an error operand the result wraps that operand. -/
def errorf (fmt : Bytes) (args : List Arg) : GoError :=
  match wrappedOperand fmt args with
  | some e => .wrap (sprintf fmt args) e
  | none => .new (sprintf fmt args)

/-- Model of `fmt.Println` on string operands: operands separated by a
space, followed by a newline. -/
def sprintln : List Bytes → Bytes
  | [] => [10]
  | [a] => a ++ [10]
  | a :: rest => a ++ 32 :: sprintln rest

/-! ## UTF-8 (package `unicode/utf8`) -/

/-- The constant `utf8.RuneError`, U+FFFD. -/
def RuneError : Nat := 0xFFFD

/-- The tables `first` and `acceptRanges` of `unicode/utf8`, for a leading
byte of a multi-byte sequence: the length of the sequence and the accepted
range of the second byte.  `none` for the bytes marked `xx` (0x80-0xC1 and
0xF5-0xFF). -/
def leadByte (b : Nat) : Option (Nat × Nat × Nat) :=
  if 0xC2 ≤ b ∧ b ≤ 0xDF then some (2, 0x80, 0xBF)
  else if b = 0xE0 then some (3, 0xA0, 0xBF)
  else if 0xE1 ≤ b ∧ b ≤ 0xEC then some (3, 0x80, 0xBF)
  else if b = 0xED then some (3, 0x80, 0x9F)
  else if 0xEE ≤ b ∧ b ≤ 0xEF then some (3, 0x80, 0xBF)
  else if b = 0xF0 then some (4, 0x90, 0xBF)
  else if 0xF1 ≤ b ∧ b ≤ 0xF3 then some (4, 0x80, 0xBF)
  else if b = 0xF4 then some (4, 0x80, 0x8F)
  else none

/-- Model of `utf8.DecodeRuneInString`: the rune at the head of `s` and its
width in bytes; `(RuneError, 1)` for an invalid encoding, `(RuneError, 0)`
for the empty string.  The masks and shifts of the source are written with
`%` and `*`: `s0 & mask2` is `s0 % 32`, `s0 & mask3` is `s0 % 16`,
`s0 & mask4` is `s0 % 8`, `s & maskx` is `s % 64`. -/
def decodeRune : Bytes → Nat × Nat
  | [] => (RuneError, 0)
  | s0 :: rest =>
    if s0 < 0x80 then (s0, 1)
    else
      match leadByte s0 with
      | none => (RuneError, 1)
      | some (sz, lo, hi) =>
        if (s0 :: rest).length < sz then (RuneError, 1)
        else
          match rest with
          | [] => (RuneError, 1)
          | s1 :: rest1 =>
            if s1 < lo ∨ hi < s1 then (RuneError, 1)
            else if sz ≤ 2 then ((s0 % 32) * 64 + s1 % 64, 2)
            else
              match rest1 with
              | [] => (RuneError, 1)
              | s2 :: rest2 =>
                if s2 < 0x80 ∨ 0xBF < s2 then (RuneError, 1)
                else if sz ≤ 3 then ((s0 % 16) * 4096 + (s1 % 64) * 64 + s2 % 64, 3)
                else
                  match rest2 with
                  | [] => (RuneError, 1)
                  | s3 :: _ =>
                    if s3 < 0x80 ∨ 0xBF < s3 then (RuneError, 1)
                    else ((s0 % 8) * 262144 + (s1 % 64) * 4096 + (s2 % 64) * 64 + s3 % 64, 4)

/-- Model of `utf8.AppendRune` / `utf8.EncodeRune` on a non-negative rune:
surrogates and values above U+10FFFF are written as U+FFFD. -/
def encodeRune (r : Nat) : Bytes :=
  if r ≤ 0x7F then [r]
  else if r ≤ 0x7FF then [0xC0 + r / 64, 0x80 + r % 64]
  else if 0x10FFFF < r ∨ (0xD800 ≤ r ∧ r ≤ 0xDFFF) then [0xEF, 0xBF, 0xBD]
  else if r ≤ 0xFFFF then [0xE0 + r / 4096, 0x80 + (r / 64) % 64, 0x80 + r % 64]
  else [0xF0 + r / 262144, 0x80 + (r / 4096) % 64, 0x80 + (r / 64) % 64, 0x80 + r % 64]

/-- A Unicode scalar value: a code point up to U+10FFFF that is not a
surrogate. -/
def IsScalar (r : Nat) : Prop := r ≤ 0x10FFFF ∧ ¬ (0xD800 ≤ r ∧ r ≤ 0xDFFF)

instance (r : Nat) : Decidable (IsScalar r) := by
  unfold IsScalar; infer_instance

/-- The UTF-8 encoding of a sequence of runes. -/
def encodeRunes : List Nat → Bytes
  | [] => []
  | r :: rs => encodeRune r ++ encodeRunes rs

/-- Well-formed UTF-8: the byte sequence is the encoding of a sequence of
Unicode scalar values (what `utf8.Valid` accepts). -/
def ValidUTF8 (s : Bytes) : Prop :=
  ∃ runes : List Nat, (∀ r ∈ runes, IsScalar r) ∧ s = encodeRunes runes

/-! ## JSON encoding (package `encoding/json`) -/

/-- The digit string `"0123456789abcdef"` of `encoding/json`, indexed. -/
def hex (n : Nat) : Nat := if n < 10 then 48 + n else 87 + n

/-- The ASCII bytes that `json.Marshal` escapes: those outside
`htmlSafeSet`, that is control bytes, `"`, `\`, `<`, `>` and `&`. -/
def needsEscape (b : Nat) : Bool :=
  b < 0x20 || b = 0x22 || b = 0x5C || b = 0x3C || b = 0x3E || b = 0x26

/-- What `appendString` writes for one ASCII byte (Go 1.22 and later, which
write the control bytes 8 and 12 as the two-byte escapes `\b` and `\f`). -/
def escapeASCII (b : Nat) : Bytes :=
  if needsEscape b then
    if b = 0x5C ∨ b = 0x22 then [0x5C, b]
    else if b = 0x08 then [0x5C, 0x62]
    else if b = 0x0C then [0x5C, 0x66]
    else if b = 0x0A then [0x5C, 0x6E]
    else if b = 0x0D then [0x5C, 0x72]
    else if b = 0x09 then [0x5C, 0x74]
    else [0x5C, 0x75, 0x30, 0x30, hex (b / 16), hex (b % 16)]
  else [b]

/-- The loop of `appendString` in `encoding/json` (with `escapeHTML` set, as
`json.Marshal` does): one iteration per unit of fuel.  An ASCII byte is
copied or escaped; an invalid byte becomes a backslash followed by ufffd;
U+2028 and U+2029 become a backslash followed by u2028 or u2029;
any other rune is copied. -/
def appendStringLoop : Nat → Bytes → Bytes
  | 0, _ => []
  | _, [] => []
  | fuel + 1, b :: rest =>
    if b < 0x80 then escapeASCII b ++ appendStringLoop fuel rest
    else
      let (c, size) := decodeRune (b :: rest)
      if c = RuneError ∧ size = 1 then
        [0x5C, 0x75, 0x66, 0x66, 0x66, 0x64] ++ appendStringLoop fuel rest
      else if c = 0x2028 ∨ c = 0x2029 then
        [0x5C, 0x75, 0x32, 0x30, 0x32, hex (c % 16)] ++ appendStringLoop fuel (rest.drop (size - 1))
      else
        (b :: rest).take size ++ appendStringLoop fuel (rest.drop (size - 1))

/-- Model of `appendString` of `encoding/json`: the string between double
quotes, encoded by the loop above (at most one iteration per byte). -/
def appendString (s : Bytes) : Bytes :=
  0x22 :: (appendStringLoop s.length s ++ [0x22])

/-- The digit loop of `strconv.AppendInt` in base ten: the decimal digits of
`n` in front of `acc`. -/
def formatBits : Nat → Nat → Bytes → Bytes
  | 0, _, acc => acc
  | fuel + 1, n, acc =>
    if n < 10 then (48 + n) :: acc
    else formatBits fuel (n / 10) ((48 + n % 10) :: acc)

/-- The decimal digits of a natural number. -/
def formatNat (n : Nat) : Bytes := formatBits (n + 1) n []

/-- Model of `strconv.AppendInt(_, n, 10)`, which `json.Marshal` uses for an
`int`: a minus sign for a negative number, then the digits. -/
def appendInt (n : Int) : Bytes :=
  if n < 0 then 0x2D :: formatNat n.natAbs else formatNat n.natAbs

mutual
/-- A Go value as `json.Marshal` sees it through reflection. -/
inductive GoValue where
  | str (s : Bytes)
  | int (n : Int)
  | bool (b : Bool)
  | struct (fields : GoFields)
  | unsupported (kind : Bytes)
/-- The exported fields of a struct, each under its JSON name. -/
inductive GoFields where
  | nil
  | cons (name : Bytes) (v : GoValue) (rest : GoFields)
end

mutual
/-- Model of `json.Marshal`: strings, integers, booleans and structs of them
are encoded in compact form; a value of a kind JSON cannot represent
(channel, function, complex number) gives an `UnsupportedTypeError`. -/
def jsonMarshal : GoValue → Except GoError Bytes
  | .str s => .ok (appendString s)
  | .int n => .ok (appendInt n)
  | .bool b => .ok (if b then lit "true" else lit "false")
  | .struct fields =>
    match marshalFields fields true with
    | .ok b => .ok (0x7B :: (b ++ [0x7D]))
    | .error e => .error e
  | .unsupported kind => .error (.new (lit "json: unsupported type: " ++ kind))
/-- The struct encoder: the fields in declaration order, separated by commas,
each as `"name":value`. -/
def marshalFields : GoFields → Bool → Except GoError Bytes
  | .nil, _ => .ok []
  | .cons name v rest, isFirst =>
    match jsonMarshal v with
    | .error e => .error e
    | .ok b =>
      match marshalFields rest false with
      | .error e => .error e
      | .ok r => .ok ((if isFirst then [] else [0x2C]) ++ (appendString name ++ (0x3A :: (b ++ r))))
end

/-! ## HTTP requests and responses (package `net/http`) -/

/-- The function `validHeaderFieldByte` of `net/textproto` (the token
table of RFC 7230): letters, digits and the punctuation allowed in a
token. -/
def validHeaderFieldByte (c : Nat) : Bool :=
  (0x30 ≤ c && c ≤ 0x39) || (0x41 ≤ c && c ≤ 0x5A) || (0x61 ≤ c && c ≤ 0x7A) ||
  c ∈ [0x21, 0x23, 0x24, 0x25, 0x26, 0x27, 0x2A, 0x2B, 0x2D, 0x2E, 0x5E, 0x5F, 0x60, 0x7C, 0x7E]

/-- The loop of `canonicalMIMEHeaderKey`: a letter is made upper case at the
start and after a hyphen, lower case elsewhere. -/
def canonicalLoop : Bool → Bytes → Bytes
  | _, [] => []
  | upper, c :: rest =>
    (if upper ∧ 0x61 ≤ c ∧ c ≤ 0x7A then c - 32
     else if ¬ upper ∧ 0x41 ≤ c ∧ c ≤ 0x5A then c + 32
     else c) :: canonicalLoop (c = 0x2D) rest

/-- Model of `textproto.CanonicalMIMEHeaderKey`: a key with a byte that is
not a token byte is returned unchanged. -/
def CanonicalMIMEHeaderKey (s : Bytes) : Bytes :=
  if s.all validHeaderFieldByte then canonicalLoop true s else s

/-- The type `http.Header`: the values stored under each canonical key. -/
abbrev Header := List (Bytes × List Bytes)

/-- Model of `Header.Set`: the canonical key gets the single value. -/
def Header.Set (h : Header) (key value : Bytes) : Header :=
  (CanonicalMIMEHeaderKey key, [value]) ::
    h.filter (fun kv => kv.1 ≠ CanonicalMIMEHeaderKey key)

/-- Model of `Header.Values`: all the values stored under a key. -/
def Header.Values (h : Header) (key : Bytes) : List Bytes :=
  match h.lookup (CanonicalMIMEHeaderKey key) with
  | some vs => vs
  | none => []

/-- Model of `Header.Get`: the first value stored under a key, or the empty
string. -/
def Header.Get (h : Header) (key : Bytes) : Bytes :=
  match Header.Values h key with
  | v :: _ => v
  | [] => []

/-- The fields of `http.Request` the program sets: the method, the URL as it
was given to `http.NewRequest`, the header and the bytes of the body. -/
structure Request where
  Method : Bytes
  URL : Bytes
  Header : Header
  Body : Bytes
  deriving DecidableEq, Repr

/-- A response body as a stream: the bytes it delivers and, when it breaks
off before its end, the error of the read that failed. -/
structure Body where
  data : Bytes
  err : Option GoError
  deriving DecidableEq, Repr

/-- The fields of `http.Response` that matter here. -/
structure Response where
  StatusCode : Int
  Header : Header := []
  Body : Body
  deriving DecidableEq, Repr

/-- Model of `io.ReadAll`: the bytes read, and `nil` at the end of the stream
or the error that interrupted it. -/
def ReadAll (b : Body) : Bytes × Option GoError := (b.data, b.err)

/-- The world outside the program. -/
structure World where
  /-- The result of `os.ReadFile` at a path. -/
  ReadFile : Bytes → Except GoError Bytes
  /-- The error, if any, of `url.Parse` on a raw URL. -/
  ParseURL : Bytes → Option GoError
  /-- The result of `http.DefaultClient.Do`, the one network call of the
  program (what the client does inside the call, such as following a
  redirect, is part of it). -/
  Do : Request → Except GoError Response
  /-- The result of `debug.ReadBuildInfo`: the Go version and the version of
  the main module. -/
  ReadBuildInfo : Option (Bytes × Bytes)

/-- Model of `http.NewRequest`: an empty method stands for GET; the call
fails on a method that is not a token (the quoted method is left out of the
message) and on a URL that `url.Parse` rejects; otherwise it gives a request
with an empty header. -/
def NewRequest (w : World) (method url body : Bytes) : Except GoError Request :=
  let method := if method = [] then lit "GET" else method
  if ¬ method.all validHeaderFieldByte then
    .error (.new (lit "net/http: invalid method"))
  else
    match w.ParseURL url with
    | some err => .error err
    | none => .ok { Method := method, URL := url, Header := [], Body := body }

/-- What the program does to the world, in program order. -/
inductive Event where
  /-- A call of `os.ReadFile`. -/
  | readFile (path : Bytes)
  /-- A call of `http.DefaultClient.Do`, with the request it is given. -/
  | send (req : Request)
  /-- A call of `io.ReadAll` on the response body. -/
  | readAll
  /-- A call of `resp.Body.Close`. -/
  | close
  /-- Text written to standard output. -/
  | stdout (text : Bytes)
  /-- A call of `log.Fatal`: the message is logged and the process exits
  with status 1. -/
  | fatal (msg : Bytes)
  deriving DecidableEq, Repr

/-- The requests handed to `http.DefaultClient.Do` in a trace, one for each
call. -/
def sent : List Event → List Request
  | [] => []
  | .send req :: t => req :: sent t
  | _ :: t => sent t

/-- The number of times a response body is closed in a trace. -/
def closes : List Event → Nat
  | [] => 0
  | .close :: t => closes t + 1
  | _ :: t => closes t

/-- The texts written to standard output in a trace. -/
def printed : List Event → List Bytes
  | [] => []
  | .stdout text :: t => text :: printed t
  | _ :: t => printed t

/-! ## The client behind `http.DefaultClient.Do` (package `net/http`)

`Do` is not a single round trip: the default client has no `CheckRedirect`
function, so it follows redirects, up to ten requests in all, and each
request is one invocation of the transport. -/

/-- The network behind the default client. -/
structure Network where
  /-- The result of one round trip of the transport
  (`http.DefaultTransport.RoundTrip`). -/
  RoundTrip : Request → Except GoError Response
  /-- The result of `req.URL.Parse(loc)`: the `Location` header of a
  response resolved against the URL of the request. -/
  ResolveLocation : Bytes → Bytes → Except GoError Bytes

/-- The function `redirectBehavior` of `net/http`, for a request made by
`http.NewRequest` from a `bytes.Reader` (so that `GetBody` is set): the
method of the next request, whether to redirect, and whether to send the
body again.  A 301, 302 or 303 turns a POST into a GET without a body; a 307
or 308 repeats the method and the body. -/
def redirectBehavior (reqMethod : Bytes) (resp : Response) : Bytes × Bool × Bool :=
  if resp.StatusCode = 301 ∨ resp.StatusCode = 302 ∨ resp.StatusCode = 303 then
    (if reqMethod ≠ lit "GET" ∧ reqMethod ≠ lit "HEAD" then lit "GET" else reqMethod,
     true, false)
  else if resp.StatusCode = 307 ∨ resp.StatusCode = 308 then (reqMethod, true, true)
  else (reqMethod, false, false)

/-- The function `urlErrorOp` of `net/http`: the method with its first byte
kept and the other letters in lower case (`Post` for `POST`). -/
def urlErrorOp : Bytes → Bytes
  | [] => lit "Get"
  | c :: rest => c :: rest.map (fun d => if 0x41 ≤ d ∧ d ≤ 0x5A then d + 32 else d)

/-- The error that the client returns: a `*url.Error` whose message is the
operation, the quoted URL and the message of the cause, which it wraps. -/
def urlError (op url : Bytes) (err : GoError) : GoError :=
  .wrap (op ++ lit " \"" ++ url ++ lit "\": " ++ err.Error) err

/-- The loop of `Client.do`, from a request about to be sent: `ireq` is the
first request, `left` the number of redirects that `defaultCheckRedirect`
still allows.  The result is the requests given to the transport, in
order, and what `Do` returns.  A redirect response without a `Location`
header is returned as it is.  The next request takes the method of
`redirectBehavior`, the resolved location, the header of the first request
and, for a 307 or 308, its body.  (The `Referer` header and the removal of
credentials when the host changes are left out.) -/
def clientLoop (n : Network) (ireq : Request) :
    Nat → Request → List Request × Except GoError Response
  | left, req =>
    match n.RoundTrip req with
    | .error err => ([req], .error (urlError (urlErrorOp ireq.Method) ireq.URL err))
    | .ok resp =>
      match redirectBehavior req.Method resp with
      | (_, false, _) => ([req], .ok resp)
      | (redirectMethod, true, includeBody) =>
        if Header.Get resp.Header (lit "Location") = [] then ([req], .ok resp)
        else
          match n.ResolveLocation req.URL (Header.Get resp.Header (lit "Location")) with
          | .error err =>
            ([req], .error (urlError (urlErrorOp ireq.Method) req.URL
              (.new (lit "failed to parse Location header: " ++ err.Error))))
          | .ok u =>
            match left with
            | 0 =>
              ([req], .error (urlError (urlErrorOp ireq.Method)
                (Header.Get resp.Header (lit "Location"))
                (.new (lit "stopped after 10 redirects"))))
            | left + 1 =>
              let next : Request :=
                { Method := redirectMethod, URL := u, Header := ireq.Header,
                  Body := if includeBody then ireq.Body else [] }
              match clientLoop n ireq left next with
              | (hops, res) => (req :: hops, res)

/-- Model of `http.DefaultClient.Do` over a network: the requests given to
the transport and the result of the call.  After the first request at most
nine redirects are followed. -/
def clientDo (n : Network) (req : Request) : List Request × Except GoError Response :=
  clientLoop n req 9 req

/-- A world whose client call is the default client over the network `n`. -/
def clientWorld (n : Network) (w : World) : World :=
  { w with Do := fun req => (clientDo n req).2 }

/-- The requests given to the transport in a trace, when the client runs
over the network `n`: those of each call of `http.DefaultClient.Do`. -/
def roundTrips (n : Network) : List Event → List Request
  | [] => []
  | .send req :: t => (clientDo n req).1 ++ roundTrips n t
  | _ :: t => roundTrips n t

/-! ## The program (`main.go`) -/

/-- The struct `Flag`. -/
structure Flag where
  version : Bool
  verbose : Bool
  projectID : Bytes
  apiVersion : Bytes
  token : Bytes
  file : Bytes
  targetEndpointFolderId : Int
  targetSchemaFolderId : Int
  endpointOverwriteBehavior : Bytes
  schemaOverwriteBehavior : Bytes
  updateFolderOfChangedEndpoint : Bool
  prependBasePath : Bool
  deriving DecidableEq, Repr

/-- The default values that `main` declares for the flags. -/
def defaultFlag : Flag where
  version := false
  verbose := false
  projectID := lit ""
  apiVersion := lit "2024-03-28"
  token := lit ""
  file := lit "swagger.yaml"
  targetEndpointFolderId := 0
  targetSchemaFolderId := 0
  endpointOverwriteBehavior := lit "OVERWRITE_EXISTING"
  schemaOverwriteBehavior := lit "OVERWRITE_EXISTING"
  updateFolderOfChangedEndpoint := false
  prependBasePath := false

/-- The local struct `Options` of `request`. -/
structure Options where
  TargetEndpointFolderID : Int
  TargetSchemaFolderID : Int
  EndpointOverwriteBehavior : Bytes
  SchemaOverwriteBehavior : Bytes
  UpdateFolderOfChangedEndpoint : Bool
  PrependBasePath : Bool
  deriving DecidableEq, Repr

/-- The local struct `Payload` of `request`. -/
structure Payload where
  Input : Bytes
  Options : Options
  deriving DecidableEq, Repr

/-- The struct `Options` as reflection shows it to `json.Marshal`: the fields
in declaration order under the names of their `json` tags. -/
def Options.toValue (o : Options) : GoValue :=
  .struct
    (.cons (lit "targetEndpointFolderId") (.int o.TargetEndpointFolderID)
    (.cons (lit "targetSchemaFolderId") (.int o.TargetSchemaFolderID)
    (.cons (lit "endpointOverwriteBehavior") (.str o.EndpointOverwriteBehavior)
    (.cons (lit "schemaOverwriteBehavior") (.str o.SchemaOverwriteBehavior)
    (.cons (lit "updateFolderOfChangedEndpoint") (.bool o.UpdateFolderOfChangedEndpoint)
    (.cons (lit "prependBasePath") (.bool o.PrependBasePath) .nil))))))

/-- The struct `Payload` as reflection shows it to `json.Marshal`. -/
def Payload.toValue (p : Payload) : GoValue :=
  .struct
    (.cons (lit "input") (.str p.Input)
    (.cons (lit "options") p.Options.toValue .nil))

/-- The value `data` that `request` builds from its arguments. -/
def requestData (input : Bytes) (f : Flag) : Payload where
  Input := input
  Options :=
    { TargetEndpointFolderID := f.targetEndpointFolderId
      TargetSchemaFolderID := f.targetSchemaFolderId
      EndpointOverwriteBehavior := f.endpointOverwriteBehavior
      SchemaOverwriteBehavior := f.schemaOverwriteBehavior
      UpdateFolderOfChangedEndpoint := f.updateFolderOfChangedEndpoint
      PrependBasePath := f.prependBasePath }

/-- The string `api` that `request` builds with `fmt.Sprintf`. -/
def requestAPI (f : Flag) : Bytes :=
  sprintf (lit "https://api.apifox.com/v1/projects/%s/import-openapi?locale=zh-CN")
    [.str f.projectID]

/-- The result of a call of `request`: what it did and the error it
returned (`none` is `nil`). -/
structure Outcome where
  trace : List Event
  err : Option GoError
  deriving DecidableEq, Repr

/-- The function `request`.  The deferred `resp.Body.Close()` runs when the
function returns, after everything that follows the `defer` statement. -/
def request (w : World) (input : Bytes) (f : Flag) : Outcome :=
  match jsonMarshal (requestData input f).toValue with
  | .error err =>
    { trace := [], err := some (errorf (lit "encode payload: %w") [.err err]) }
  | .ok payloadBytes =>
    match NewRequest w (lit "POST") (requestAPI f) payloadBytes with
    | .error err =>
      { trace := [], err := some (errorf (lit "create request: %w") [.err err]) }
    | .ok req0 =>
      let req : Request :=
        { req0 with
          Header :=
            ((req0.Header.Set (lit "X-Apifox-Api-Version") f.apiVersion).Set
              (lit "Authorization") (lit "Bearer " ++ f.token)).Set
              (lit "Content-Type") (lit "application/json") }
      match w.Do req with
      | .error err =>
        { trace := [.send req], err := some (errorf (lit "request import: %w") [.err err]) }
      | .ok resp =>
        let afterDefer : Outcome :=
          match ReadAll resp.Body with
          | (_, some err) =>
            { trace := [.readAll], err := some (errorf (lit "read response: %w") [.err err]) }
          | (b, none) =>
            { trace := .readAll ::
                (if f.verbose then [.stdout (sprintf (lit "Result: %s\n") [.str b])] else [])
              err := none }
        { trace := .send req :: (afterDefer.trace ++ [.close]), err := afterDefer.err }

/-- The function `read`: the events and the result. -/
def read (w : World) (path : Bytes) : List Event × Except GoError Bytes :=
  match w.ReadFile path with
  | .error err =>
    ([.readFile path], .error (errorf (lit "read swagger file (%s): %w") [.str path, .err err]))
  | .ok b => ([.readFile path], .ok b)

/-- The variable `BuildTime`. -/
def BuildTime : Bytes := lit "unknown"

/-- The function `getBuildVersion`. -/
def getBuildVersion (w : World) : Bytes × Bytes :=
  match w.ReadBuildInfo with
  | none => (lit "unknown", lit "unknown")
  | some (goVersion, mainVersion) => (goVersion, mainVersion)

/-- The result of a run of the program: what it did and its exit status. -/
structure Exit where
  trace : List Event
  status : Nat
  deriving DecidableEq, Repr

/-- The function `main`, from the point where `flag.Parse` has filled the
`Flag` record `f`. -/
def main (w : World) (f : Flag) : Exit :=
  if f.version then
    { trace :=
        [.stdout (sprintln [lit "git_version:", (getBuildVersion w).2]),
         .stdout (sprintln [lit "build_time:", BuildTime])]
      status := 0 }
  else
    match read w f.file with
    | (t, .error err) => { trace := t ++ [.fatal err.Error], status := 1 }
    | (t, .ok input) =>
      match request w input f with
      | { trace := t2, err := some err } =>
        { trace := t ++ t2 ++ [.fatal err.Error], status := 1 }
      | { trace := t2, err := none } =>
        { trace := t ++ t2 ++ [.stdout (sprintln [lit "apifox import completed."])],
          status := 0 }

/-! ## Reading the payload back

`main.go` only writes JSON.  To state that the payload survives a round
trip, this section gives the reading side: a reader for the JSON text of a
`Payload`, after the decoder of `encoding/json` (`unquote`, `getu4`, the
number and object grammar).  Member names are matched exactly, a member of
an unknown name is an error, and integers are not limited to 64 bits. -/

/-- The value of a hexadecimal digit (`getu4`). -/
def unhex (c : Nat) : Option Nat :=
  if 0x30 ≤ c ∧ c ≤ 0x39 then some (c - 0x30)
  else if 0x61 ≤ c ∧ c ≤ 0x66 then some (c - 0x61 + 10)
  else if 0x41 ≤ c ∧ c ≤ 0x46 then some (c - 0x41 + 10)
  else none

/-- The four hexadecimal digits of a `\u` escape: their value and the rest
of the input. -/
def getu4 : Bytes → Option (Nat × Bytes)
  | a :: b :: c :: d :: rest =>
    match unhex a, unhex b, unhex c, unhex d with
    | some a, some b, some c, some d => some (((a * 16 + b) * 16 + c) * 16 + d, rest)
    | _, _, _, _ => none
  | _ => none

/-- The byte that a two-byte escape stands for. -/
def unescape (e : Nat) : Option Nat :=
  if e = 0x22 ∨ e = 0x5C ∨ e = 0x2F then some e
  else if e = 0x62 then some 0x08
  else if e = 0x66 then some 0x0C
  else if e = 0x6E then some 0x0A
  else if e = 0x72 then some 0x0D
  else if e = 0x74 then some 0x09
  else none

/-- Put decoded bytes in front of the result of decoding the rest. -/
def prepend (out : Bytes) : Option (Bytes × Bytes) → Option (Bytes × Bytes)
  | some (s, rest) => some (out ++ s, rest)
  | none => none

/-- The loop of `unquote` in `encoding/json`, reading up to the closing
quote: the decoded string and the input after the quote.  Escapes are
decoded, a pair of surrogate escapes gives one rune, a lone surrogate and an
invalid byte give U+FFFD, a raw control byte is an error. -/
def unquoteLoop : Nat → Bytes → Option (Bytes × Bytes)
  | 0, _ => none
  | _, [] => none
  | fuel + 1, c :: rest =>
    if c = 0x22 then some ([], rest)
    else if c = 0x5C then
      match rest with
      | [] => none
      | e :: rest1 =>
        if e = 0x75 then
          match getu4 rest1 with
          | none => none
          | some (rr, rest2) =>
            if 0xD800 ≤ rr ∧ rr < 0xE000 then
              match rest2 with
              | 0x5C :: 0x75 :: rest3 =>
                match getu4 rest3 with
                | some (rr1, rest4) =>
                  if rr < 0xDC00 ∧ 0xDC00 ≤ rr1 ∧ rr1 < 0xE000 then
                    prepend (encodeRune ((rr - 0xD800) * 1024 + (rr1 - 0xDC00) + 0x10000))
                      (unquoteLoop fuel rest4)
                  else prepend (encodeRune RuneError) (unquoteLoop fuel rest2)
                | none => prepend (encodeRune RuneError) (unquoteLoop fuel rest2)
              | _ => prepend (encodeRune RuneError) (unquoteLoop fuel rest2)
            else prepend (encodeRune rr) (unquoteLoop fuel rest2)
        else
          match unescape e with
          | some b => prepend [b] (unquoteLoop fuel rest1)
          | none => none
    else if c < 0x20 then none
    else if c < 0x80 then prepend [c] (unquoteLoop fuel rest)
    else
      let (rr, size) := decodeRune (c :: rest)
      prepend (encodeRune rr) (unquoteLoop fuel (rest.drop (size - 1)))

/-- Read a JSON string: the decoded string and the rest of the input. -/
def parseString : Bytes → Option (Bytes × Bytes)
  | c :: rest => if c = 0x22 then unquoteLoop rest.length rest else none
  | [] => none

/-- Read decimal digits into an accumulator. -/
def parseDigits : Nat → Bytes → Nat × Bytes
  | acc, [] => (acc, [])
  | acc, c :: rest =>
    if 0x30 ≤ c ∧ c ≤ 0x39 then parseDigits (acc * 10 + (c - 0x30)) rest
    else (acc, c :: rest)

/-- Read a natural number in the JSON grammar: a lone zero, or digits that do
not start with zero; a fraction or an exponent is an error, since the
target is an `int`. -/
def parseNat : Bytes → Option (Nat × Bytes)
  | [] => none
  | c :: rest =>
    if 0x30 ≤ c ∧ c ≤ 0x39 then
      match parseDigits 0 (c :: rest) with
      | (n, after) =>
        if c = 0x30 ∧ after ≠ rest then none
        else
          match after with
          | d :: _ => if d = 0x2E ∨ d = 0x65 ∨ d = 0x45 then none else some (n, after)
          | [] => some (n, after)
    else none

/-- Read a JSON number into an `int`. -/
def parseInt : Bytes → Option (Int × Bytes)
  | [] => none
  | c :: rest =>
    if c = 0x2D then
      match parseNat rest with
      | some (n, after) => some (-(n : Int), after)
      | none => none
    else
      match parseNat (c :: rest) with
      | some (n, after) => some ((n : Int), after)
      | none => none

/-- Read `true` or `false`. -/
def parseBool : Bytes → Option (Bool × Bytes)
  | 0x74 :: 0x72 :: 0x75 :: 0x65 :: rest => some (true, rest)
  | 0x66 :: 0x61 :: 0x6C :: 0x73 :: 0x65 :: rest => some (false, rest)
  | _ => none

/-- Skip JSON white space. -/
def skipSpace : Bytes → Bytes
  | [] => []
  | c :: rest =>
    if c = 0x20 ∨ c = 0x09 ∨ c = 0x0A ∨ c = 0x0D then skipSpace rest else c :: rest

/-- Read the members of an object after its opening brace, up to and
including the closing brace; `field` reads the value of a member into the
struct being filled. -/
def parseMembers {σ : Type} (field : σ → Bytes → Bytes → Option (σ × Bytes)) :
    Nat → σ → Bytes → Option (σ × Bytes)
  | 0, _, _ => none
  | fuel + 1, st, bs =>
    match parseString (skipSpace bs) with
    | none => none
    | some (key, r1) =>
      match skipSpace r1 with
      | [] => none
      | c :: r2 =>
        if c = 0x3A then
          match field st key (skipSpace r2) with
          | none => none
          | some (st1, r3) =>
            match skipSpace r3 with
            | [] => none
            | d :: r4 =>
              if d = 0x2C then parseMembers field fuel st1 r4
              else if d = 0x7D then some (st1, r4)
              else none
        else none

/-- Read a JSON object into a struct, starting from the value `st`. -/
def parseObject {σ : Type} (field : σ → Bytes → Bytes → Option (σ × Bytes))
    (st : σ) (bs : Bytes) : Option (σ × Bytes) :=
  match skipSpace bs with
  | [] => none
  | c :: r =>
    if c = 0x7B then
      match skipSpace r with
      | [] => none
      | d :: r1 => if d = 0x7D then some (st, r1) else parseMembers field r.length st r
    else none

/-- Read one member of the struct `Options`, by the name of its `json` tag;
a member of another name is an error. -/
def optionsField (o : Options) (key : Bytes) (bs : Bytes) : Option (Options × Bytes) :=
  if key = lit "targetEndpointFolderId" then
    (parseInt bs).map fun r => ({ o with TargetEndpointFolderID := r.1 }, r.2)
  else if key = lit "targetSchemaFolderId" then
    (parseInt bs).map fun r => ({ o with TargetSchemaFolderID := r.1 }, r.2)
  else if key = lit "endpointOverwriteBehavior" then
    (parseString bs).map fun r => ({ o with EndpointOverwriteBehavior := r.1 }, r.2)
  else if key = lit "schemaOverwriteBehavior" then
    (parseString bs).map fun r => ({ o with SchemaOverwriteBehavior := r.1 }, r.2)
  else if key = lit "updateFolderOfChangedEndpoint" then
    (parseBool bs).map fun r => ({ o with UpdateFolderOfChangedEndpoint := r.1 }, r.2)
  else if key = lit "prependBasePath" then
    (parseBool bs).map fun r => ({ o with PrependBasePath := r.1 }, r.2)
  else none

/-- Read one member of the struct `Payload`. -/
def payloadField (p : Payload) (key : Bytes) (bs : Bytes) : Option (Payload × Bytes) :=
  if key = lit "input" then
    (parseString bs).map fun r => ({ p with Input := r.1 }, r.2)
  else if key = lit "options" then
    (parseObject optionsField p.Options bs).map fun r => ({ p with Options := r.1 }, r.2)
  else none

/-- The zero value of the struct `Payload`. -/
def zeroPayload : Payload where
  Input := []
  Options :=
    { TargetEndpointFolderID := 0
      TargetSchemaFolderID := 0
      EndpointOverwriteBehavior := []
      SchemaOverwriteBehavior := []
      UpdateFolderOfChangedEndpoint := false
      PrependBasePath := false }

/-- Parse a JSON text back into a `Payload` (as `json.Unmarshal` into a zero
`Payload` does): `none` when the text is not a JSON object of that shape. -/
def parsePayload (bs : Bytes) : Option Payload :=
  match parseObject payloadField zeroPayload bs with
  | some (p, rest) => if skipSpace rest = [] then some p else none
  | none => none

/-! ## Closed forms and sample inputs -/

/-- What `appendString` writes for one Unicode scalar value. -/
def writtenRune (r : Nat) : Bytes :=
  if r < 0x80 then escapeASCII r
  else if r = 0x2028 ∨ r = 0x2029 then [0x5C, 0x75, 0x32, 0x30, 0x32, hex (r % 16)]
  else encodeRune r

/-- The bytes `json.Marshal` writes for a boolean. -/
def boolJSON (b : Bool) : Bytes := if b then lit "true" else lit "false"

/-- The JSON text of the struct `Options`, member by member. -/
def optionsJSON (o : Options) : Bytes :=
  0x7B :: (appendString (lit "targetEndpointFolderId") ++ 0x3A ::
    (appendInt o.TargetEndpointFolderID ++ 0x2C ::
  (appendString (lit "targetSchemaFolderId") ++ 0x3A ::
    (appendInt o.TargetSchemaFolderID ++ 0x2C ::
  (appendString (lit "endpointOverwriteBehavior") ++ 0x3A ::
    (appendString o.EndpointOverwriteBehavior ++ 0x2C ::
  (appendString (lit "schemaOverwriteBehavior") ++ 0x3A ::
    (appendString o.SchemaOverwriteBehavior ++ 0x2C ::
  (appendString (lit "updateFolderOfChangedEndpoint") ++ 0x3A ::
    (boolJSON o.UpdateFolderOfChangedEndpoint ++ 0x2C ::
  (appendString (lit "prependBasePath") ++ 0x3A ::
    (boolJSON o.PrependBasePath ++ [0x7D]))))))))))))

/-- The JSON text of the struct `Payload`, member by member. -/
def payloadMembersJSON (p : Payload) : Bytes :=
  0x7B :: (appendString (lit "input") ++ 0x3A :: (appendString p.Input ++ 0x2C ::
    (appendString (lit "options") ++ 0x3A :: (optionsJSON p.Options ++ [0x7D]))))

/-- The JSON text of a payload, written out: what `json.Marshal` gives for
the struct `Payload` (see `jsonMarshal_payload`). -/
def payloadJSON (p : Payload) : Bytes :=
  List.flatten
    [lit "\x7b\"input\":", appendString p.Input,
     lit ",\"options\":\x7b\"targetEndpointFolderId\":", appendInt p.Options.TargetEndpointFolderID,
     lit ",\"targetSchemaFolderId\":", appendInt p.Options.TargetSchemaFolderID,
     lit ",\"endpointOverwriteBehavior\":", appendString p.Options.EndpointOverwriteBehavior,
     lit ",\"schemaOverwriteBehavior\":", appendString p.Options.SchemaOverwriteBehavior,
     lit ",\"updateFolderOfChangedEndpoint\":",
     if p.Options.UpdateFolderOfChangedEndpoint then lit "true" else lit "false",
     lit ",\"prependBasePath\":",
     if p.Options.PrependBasePath then lit "true" else lit "false",
     lit "\x7d\x7d"]

/-- The request that `request` has built when it calls
`http.DefaultClient.Do` (see `request_eq`). -/
def builtRequest (input : Bytes) (f : Flag) : Request where
  Method := lit "POST"
  URL := requestAPI f
  Header :=
    [(lit "Content-Type", [lit "application/json"]),
     (lit "Authorization", [lit "Bearer " ++ f.token]),
     (lit "X-Apifox-Api-Version", [f.apiVersion])]
  Body := payloadJSON (requestData input f)

/-- A sample configuration: the defaults, project 12345, token abc. -/
def sampleFlag : Flag :=
  { defaultFlag with projectID := lit "12345", token := lit "abc" }

/-- A sample document. -/
def sampleDocument : Bytes := lit "openapi: 3.0.0"

/-- A world whose server answers every request with status 500. -/
def serverErrorWorld : World where
  ReadFile := fun _ => .ok sampleDocument
  ParseURL := fun _ => none
  Do := fun _ =>
    .ok { StatusCode := 500, Body := { data := lit "Internal Server Error", err := none } }
  ReadBuildInfo := none

/-- A world whose server answers with status 200 and a body that breaks off
in the middle. -/
def brokenBodyWorld : World where
  ReadFile := fun _ => .ok sampleDocument
  ParseURL := fun _ => none
  Do := fun _ =>
    .ok { StatusCode := 200,
          Body := { data := lit "\x7b\"succ", err := some (.new (lit "unexpected EOF")) } }
  ReadBuildInfo := none

/-- A world without a network: every call of the client fails. -/
def offlineWorld : World where
  ReadFile := fun _ => .ok sampleDocument
  ParseURL := fun _ => none
  Do := fun _ => .error (.new (lit "dial tcp: connection refused"))
  ReadBuildInfo := none

/-- A network whose server answers a request to the import URL of the sample
configuration with status 307 and a `Location` header, and any other request
with status 200. -/
def redirectNetwork : Network where
  RoundTrip := fun req =>
    if req.URL = lit "https://api.apifox.com/v1/projects/12345/import-openapi?locale=zh-CN" then
      .ok { StatusCode := 307,
            Header := [(lit "Location", [lit "https://api.apifox.com/v2/import"])],
            Body := { data := [], err := none } }
    else .ok { StatusCode := 200, Body := { data := lit "ok", err := none } }
  ResolveLocation := fun _ loc => .ok loc

/-- A world whose file system has no file at all. -/
def missingFileWorld : World where
  ReadFile := fun path => .error (.new (lit "open " ++ path ++ lit ": no such file or directory"))
  ParseURL := fun _ => none
  Do := fun _ => .ok { StatusCode := 200, Body := { data := [], err := none } }
  ReadBuildInfo := none

/-! ## Lemmas on the library models -/

/-- The fuel of `appendString` is enough: with at least one unit of fuel
per byte the loop runs to the end of the string, so more fuel changes
nothing. -/
theorem appendStringLoop_fuel : ∀ (f g : Nat) (s : Bytes), s.length ≤ f → s.length ≤ g →
    appendStringLoop f s = appendStringLoop g s := by
  intro f
  induction f with
  | zero =>
    intro g s hf _
    have hs : s = [] := List.length_eq_zero.mp (by omega)
    subst hs
    cases g <;> rfl
  | succ f ih =>
    intro g s hf hg
    cases s with
    | nil => cases g <;> rfl
    | cons b rest =>
      cases g with
      | zero => simp at hg
      | succ g =>
        simp only [List.length_cons] at hf hg
        have hrest := ih g rest (by omega) (by omega)
        have hdrop : ∀ k, appendStringLoop f (rest.drop k) = appendStringLoop g (rest.drop k) :=
          fun k => ih g (rest.drop k) (by simp only [List.length_drop]; omega)
            (by simp only [List.length_drop]; omega)
        simp only [appendStringLoop, hrest, hdrop]

theorem appendString_keys :
    appendString (lit "input") = lit "\"input\"" ∧
    appendString (lit "options") = lit "\"options\"" ∧
    appendString (lit "targetEndpointFolderId") = lit "\"targetEndpointFolderId\"" ∧
    appendString (lit "targetSchemaFolderId") = lit "\"targetSchemaFolderId\"" ∧
    appendString (lit "endpointOverwriteBehavior") = lit "\"endpointOverwriteBehavior\"" ∧
    appendString (lit "schemaOverwriteBehavior") = lit "\"schemaOverwriteBehavior\"" ∧
    appendString (lit "updateFolderOfChangedEndpoint") =
      lit "\"updateFolderOfChangedEndpoint\"" ∧
    appendString (lit "prependBasePath") = lit "\"prependBasePath\"" := by
  decide

/-- Marshalling a payload always succeeds, with the written-out text. -/
theorem jsonMarshal_payload (p : Payload) : jsonMarshal p.toValue = .ok (payloadJSON p) := by
  obtain ⟨h1, h2, h3, h4, h5, h6, h7, h8⟩ := appendString_keys
  simp only [jsonMarshal, marshalFields, Payload.toValue, Options.toValue,
    h1, h2, h3, h4, h5, h6, h7, h8]
  simp [payloadJSON, lit]

/-- One call of the client gives the transport at least one request and at
most one more than the redirects still allowed. -/
theorem clientLoop_hops (n : Network) (ireq : Request) :
    ∀ (left : Nat) (req : Request),
      1 ≤ (clientLoop n ireq left req).1.length ∧
      (clientLoop n ireq left req).1.length ≤ left + 1 := by
  intro left
  induction left with
  | zero =>
    intro req
    unfold clientLoop
    split
    · simp
    · split
      · simp
      · split
        · simp
        · split <;> simp
  | succ left ih =>
    intro req
    unfold clientLoop
    split
    · simp
    · split
      · simp
      · split
        · simp
        · split
          · simp
          · simp only [List.length_cons]
            exact ⟨by omega, Nat.succ_le_succ (ih _).2⟩

/-- One call of `http.DefaultClient.Do` invokes the transport between one
and ten times. -/
theorem clientDo_hops (n : Network) (req : Request) :
    1 ≤ (clientDo n req).1.length ∧ (clientDo n req).1.length ≤ 10 :=
  clientLoop_hops n req 9 req

/-- A value of a kind that JSON cannot represent makes `json.Marshal` fail,
also inside a struct. -/
theorem jsonMarshal_unsupported (name kind : Bytes) :
    jsonMarshal (.struct (.cons name (.unsupported kind) .nil)) =
      .error (.new (lit "json: unsupported type: " ++ kind)) := by
  simp [jsonMarshal, marshalFields]

theorem NewRequest_post (w : World) (url body : Bytes) :
    NewRequest w (lit "POST") url body =
      match w.ParseURL url with
      | some err => .error err
      | none => .ok { Method := lit "POST", URL := url, Header := [], Body := body } := by
  have h0 : ¬ (lit "POST" = []) := by decide
  have h : ¬ ¬ (lit "POST").all validHeaderFieldByte := by decide
  simp only [NewRequest, h0, h, if_false]

theorem setHeaders_eq (v t : Bytes) :
    Header.Set (Header.Set (Header.Set [] (lit "X-Apifox-Api-Version") v)
      (lit "Authorization") (lit "Bearer " ++ t))
      (lit "Content-Type") (lit "application/json") =
    [(lit "Content-Type", [lit "application/json"]),
     (lit "Authorization", [lit "Bearer " ++ t]),
     (lit "X-Apifox-Api-Version", [v])] := by
  rfl

theorem errorf_create (e : GoError) :
    errorf (lit "create request: %w") [.err e] =
      .wrap (lit "create request: " ++ e.Error) e := by
  simp [errorf, sprintf, wrappedOperand, lit, Arg.text]

theorem errorf_import (e : GoError) :
    errorf (lit "request import: %w") [.err e] =
      .wrap (lit "request import: " ++ e.Error) e := by
  simp [errorf, sprintf, wrappedOperand, lit, Arg.text]

theorem errorf_response (e : GoError) :
    errorf (lit "read response: %w") [.err e] =
      .wrap (lit "read response: " ++ e.Error) e := by
  simp [errorf, sprintf, wrappedOperand, lit, Arg.text]

theorem errorf_read (path : Bytes) (e : GoError) :
    errorf (lit "read swagger file (%s): %w") [.str path, .err e] =
      .wrap (lit "read swagger file (" ++ path ++ lit "): " ++ e.Error) e := by
  simp [errorf, sprintf, wrappedOperand, lit, Arg.text]

/-- The four ways a call of `request` can go. -/
theorem request_eq (w : World) (input : Bytes) (f : Flag) :
    request w input f =
      match w.ParseURL (requestAPI f) with
      | some err =>
        { trace := [], err := some (.wrap (lit "create request: " ++ err.Error) err) }
      | none =>
        match w.Do (builtRequest input f) with
        | .error err =>
          { trace := [.send (builtRequest input f)],
            err := some (.wrap (lit "request import: " ++ err.Error) err) }
        | .ok resp =>
          match resp.Body.err with
          | some err =>
            { trace := [.send (builtRequest input f), .readAll, .close],
              err := some (.wrap (lit "read response: " ++ err.Error) err) }
          | none =>
            { trace := Event.send (builtRequest input f) :: Event.readAll ::
                ((if f.verbose then [Event.stdout (lit "Result: " ++ resp.Body.data ++ lit "\n")]
                  else []) ++ [Event.close]),
              err := none } := by
  unfold request
  rw [jsonMarshal_payload]
  simp only [NewRequest_post]
  cases hu : w.ParseURL (requestAPI f) with
  | some err => simp [errorf_create]
  | none =>
    simp only [setHeaders_eq]
    have hreq : Request.mk (lit "POST") (requestAPI f)
        [(lit "Content-Type", [lit "application/json"]),
         (lit "Authorization", [lit "Bearer " ++ f.token]),
         (lit "X-Apifox-Api-Version", [f.apiVersion])]
        (payloadJSON (requestData input f)) = builtRequest input f := rfl
    rw [hreq]
    cases hd : w.Do (builtRequest input f) with
    | error err => simp [errorf_import]
    | ok resp =>
      cases hb : resp.Body.err with
      | some err => simp [ReadAll, hb, errorf_response]
      | none =>
        cases hv : f.verbose <;> simp [ReadAll, hb, sprintf, lit, Arg.text]

/-- The client is handed the built request, or nothing. -/
theorem sent_request (w : World) (input : Bytes) (f : Flag) :
    sent (request w input f).trace =
      match w.ParseURL (requestAPI f) with
      | some _ => []
      | none => [builtRequest input f] := by
  rw [request_eq]
  cases hu : w.ParseURL (requestAPI f) with
  | some err => simp [sent]
  | none =>
    cases hd : w.Do (builtRequest input f) with
    | error err => simp [sent]
    | ok resp1 =>
      cases hb : resp1.Body.err <;> cases hv : f.verbose <;> simp [sent, hb]

theorem mem_sent_request (w : World) (input : Bytes) (f : Flag) (req : Request)
    (h : req ∈ sent (request w input f).trace) :
    req = builtRequest input f ∧ w.ParseURL (requestAPI f) = none := by
  rw [sent_request] at h
  cases hu : w.ParseURL (requestAPI f) with
  | some err => simp [hu] at h
  | none => simpa [hu] using h

theorem payloadJSON_default (input : Bytes) (f : Flag)
    (h1 : f.targetEndpointFolderId = defaultFlag.targetEndpointFolderId)
    (h2 : f.targetSchemaFolderId = defaultFlag.targetSchemaFolderId)
    (h3 : f.endpointOverwriteBehavior = defaultFlag.endpointOverwriteBehavior)
    (h4 : f.schemaOverwriteBehavior = defaultFlag.schemaOverwriteBehavior)
    (h5 : f.updateFolderOfChangedEndpoint = defaultFlag.updateFolderOfChangedEndpoint)
    (h6 : f.prependBasePath = defaultFlag.prependBasePath) :
    payloadJSON (requestData input f) =
      lit "\x7b\"input\":" ++ appendString input ++
        lit ",\"options\":\x7b\"targetEndpointFolderId\":0,\"targetSchemaFolderId\":0,\"endpointOverwriteBehavior\":\"OVERWRITE_EXISTING\",\"schemaOverwriteBehavior\":\"OVERWRITE_EXISTING\",\"updateFolderOfChangedEndpoint\":false,\"prependBasePath\":false\x7d\x7d" := by
  have e0 : appendInt 0 = lit "0" := by decide
  have e1 : appendString (lit "OVERWRITE_EXISTING") = lit "\"OVERWRITE_EXISTING\"" := by decide
  simp only [payloadJSON, requestData, h1, h2, h3, h4, h5, h6, defaultFlag, e0, e1]
  simp [lit]

/-! ## Lemmas on the round trip through JSON -/

theorem decodeRune_two (r : Nat) (more : Bytes) (h1 : 0x80 ≤ r) (h2 : r ≤ 0x7FF) :
    decodeRune ((0xC0 + r / 64) :: (0x80 + r % 64) :: more) = (r, 2) := by
  have hl : leadByte (0xC0 + r / 64) = some (2, 0x80, 0xBF) := by
    unfold leadByte
    rw [if_pos (by omega)]
  have hlt : ¬ (0xC0 + r / 64 < 0x80) := by omega
  simp only [decodeRune, hlt, if_false, hl, List.length_cons]
  rw [if_neg (by omega), if_neg (by omega), if_pos (by omega)]
  congr 1
  omega

theorem decodeRune_three (r : Nat) (more : Bytes) (h1 : 0x800 ≤ r) (h2 : r ≤ 0xFFFF)
    (h3 : ¬ (0xD800 ≤ r ∧ r ≤ 0xDFFF)) :
    decodeRune ((0xE0 + r / 4096) :: (0x80 + (r / 64) % 64) :: (0x80 + r % 64) :: more) = (r, 3) := by
  have hlt : ¬ (0xE0 + r / 4096 < 0x80) := by omega
  have hl : ∃ lo hi, leadByte (0xE0 + r / 4096) = some (3, lo, hi) ∧
      lo ≤ 0x80 + (r / 64) % 64 ∧ 0x80 + (r / 64) % 64 ≤ hi := by
    unfold leadByte
    by_cases c0 : r / 4096 = 0
    · refine ⟨0xA0, 0xBF, ?_, ?_, ?_⟩
      · rw [if_neg (by omega), if_pos (by omega)]
      · omega
      · omega
    · by_cases c1 : r / 4096 = 13
      · refine ⟨0x80, 0x9F, ?_, ?_, ?_⟩
        · rw [if_neg (by omega), if_neg (by omega), if_neg (by omega), if_pos (by omega)]
        · omega
        · omega
      · refine ⟨0x80, 0xBF, ?_, ?_, ?_⟩
        · by_cases c2 : r / 4096 ≤ 12
          · rw [if_neg (by omega), if_neg (by omega), if_pos (by omega)]
          · rw [if_neg (by omega), if_neg (by omega), if_neg (by omega), if_neg (by omega),
              if_pos (by omega)]
        · omega
        · omega
  obtain ⟨lo, hi, hl, hlo, hhi⟩ := hl
  simp only [decodeRune, hlt, if_false, hl, List.length_cons]
  rw [if_neg (by omega), if_neg (by omega), if_neg (by omega), if_neg (by omega), if_pos (by omega)]
  congr 1
  omega

theorem decodeRune_four (r : Nat) (more : Bytes) (h1 : 0x10000 ≤ r) (h2 : r ≤ 0x10FFFF) :
    decodeRune ((0xF0 + r / 262144) :: (0x80 + (r / 4096) % 64) :: (0x80 + (r / 64) % 64) ::
      (0x80 + r % 64) :: more) = (r, 4) := by
  have hlt : ¬ (0xF0 + r / 262144 < 0x80) := by omega
  have hl : ∃ lo hi, leadByte (0xF0 + r / 262144) = some (4, lo, hi) ∧
      lo ≤ 0x80 + (r / 4096) % 64 ∧ 0x80 + (r / 4096) % 64 ≤ hi := by
    unfold leadByte
    by_cases c0 : r / 262144 = 0
    · refine ⟨0x90, 0xBF, ?_, ?_, ?_⟩
      · rw [if_neg (by omega), if_neg (by omega), if_neg (by omega), if_neg (by omega),
          if_neg (by omega), if_pos (by omega)]
      · omega
      · omega
    · by_cases c1 : r / 262144 = 4
      · refine ⟨0x80, 0x8F, ?_, ?_, ?_⟩
        · rw [if_neg (by omega), if_neg (by omega), if_neg (by omega), if_neg (by omega),
            if_neg (by omega), if_neg (by omega), if_neg (by omega), if_pos (by omega)]
        · omega
        · omega
      · refine ⟨0x80, 0xBF, ?_, ?_, ?_⟩
        · rw [if_neg (by omega), if_neg (by omega), if_neg (by omega), if_neg (by omega),
            if_neg (by omega), if_neg (by omega), if_pos (by omega)]
        · omega
        · omega
  obtain ⟨lo, hi, hl, hlo, hhi⟩ := hl
  simp only [decodeRune, hlt, if_false, hl, List.length_cons]
  rw [if_neg (by omega), if_neg (by omega), if_neg (by omega), if_neg (by omega),
    if_neg (by omega), if_neg (by omega)]
  congr 1
  omega

/-- Decoding the encoding of a scalar value above the ASCII range gives the
value back, with the width of the encoding. -/
theorem decodeRune_encodeRune (r : Nat) (more : Bytes) (hr : IsScalar r) (h80 : 0x80 ≤ r) :
    decodeRune (encodeRune r ++ more) = (r, (encodeRune r).length) := by
  obtain ⟨hmax, hsur⟩ := hr
  unfold encodeRune
  rw [if_neg (by omega)]
  by_cases c2 : r ≤ 0x7FF
  · rw [if_pos c2]
    exact decodeRune_two r more h80 c2
  · rw [if_neg c2, if_neg (by omega)]
    by_cases c3 : r ≤ 0xFFFF
    · rw [if_pos c3]
      exact decodeRune_three r more (by omega) c3 hsur
    · rw [if_neg c3]
      exact decodeRune_four r more (by omega) hmax

theorem encodeRune_ascii (r : Nat) (h : r < 0x80) : encodeRune r = [r] := by
  unfold encodeRune
  rw [if_pos (by omega)]

theorem encodeRune_shape (r : Nat) (h80 : 0x80 ≤ r) :
    ∃ b bs, encodeRune r = b :: bs ∧ 0x80 ≤ b ∧ 1 ≤ bs.length := by
  unfold encodeRune
  rw [if_neg (by omega)]
  split
  · exact ⟨_, _, rfl, by omega, by simp⟩
  · split
    · exact ⟨_, _, rfl, by omega, by simp⟩
    · split
      · exact ⟨_, _, rfl, by omega, by simp⟩
      · exact ⟨_, _, rfl, by omega, by simp⟩

theorem encodeRune_length_pos (r : Nat) : 1 ≤ (encodeRune r).length := by
  unfold encodeRune
  split
  · simp
  · split
    · simp
    · split
      · simp
      · split <;> simp

theorem length_le_encodeRunes (runes : List Nat) :
    runes.length ≤ (encodeRunes runes).length := by
  induction runes with
  | nil => simp [encodeRunes]
  | cons r rs ih =>
    have := encodeRune_length_pos r
    simp only [encodeRunes, List.length_cons, List.length_append]
    omega

theorem appendStringLoop_rune (f : Nat) (r : Nat) (more : Bytes) (hr : IsScalar r) :
    appendStringLoop (f + 1) (encodeRune r ++ more) =
      writtenRune r ++ appendStringLoop f more := by
  by_cases h : r < 0x80
  · rw [encodeRune_ascii r h]
    simp [appendStringLoop, writtenRune, h]
  · have hdec := decodeRune_encodeRune r more hr (by omega)
    obtain ⟨b, bs, hb, hb80, hlen⟩ := encodeRune_shape r (by omega)
    rw [hb] at hdec ⊢
    simp only [List.cons_append] at hdec ⊢
    have hnot : ¬ b < 0x80 := by omega
    simp only [appendStringLoop, hnot, if_false, hdec, List.length_cons]
    have h1 : ¬ (r = RuneError ∧ bs.length + 1 = 1) := by omega
    rw [if_neg h1]
    have htake : List.take (bs.length + 1) (b :: (bs ++ more)) = b :: bs := by
      simp
    have hdrop : List.drop (bs.length + 1 - 1) (bs ++ more) = more := by
      simp
    rw [htake, hdrop]
    unfold writtenRune
    rw [if_neg h, hb]
    split <;> simp

theorem unhex_hex (n : Nat) (h : n < 16) : unhex (hex n) = some n := by
  unfold hex unhex
  by_cases c : n < 10
  · rw [if_pos c, if_pos (by omega)]
    congr 1
    omega
  · rw [if_neg c, if_neg (by omega), if_pos (by omega)]
    congr 1
    omega

theorem getu4_ascii (r : Nat) (tail : Bytes) (h : r < 0x80) :
    getu4 (0x30 :: 0x30 :: hex (r / 16) :: hex (r % 16) :: tail) = some (r, tail) := by
  have h0 : unhex 0x30 = some 0 := by decide
  simp only [getu4, h0, unhex_hex (r / 16) (by omega), unhex_hex (r % 16) (by omega)]
  congr 2
  omega

theorem unquoteLoop_ascii (F : Nat) (r : Nat) (tail : Bytes) (h : r < 0x80) :
    unquoteLoop (F + 1) (escapeASCII r ++ tail) = prepend [r] (unquoteLoop F tail) := by
  unfold escapeASCII
  by_cases hesc : needsEscape r = true
  · rw [if_pos hesc]
    by_cases c1 : r = 0x5C ∨ r = 0x22
    · rw [if_pos c1]
      rcases c1 with c1 | c1 <;> subst c1 <;> simp [unquoteLoop, unescape]
    · rw [if_neg c1]
      by_cases c2 : r = 0x08
      · subst c2; simp [unquoteLoop, unescape]
      · rw [if_neg c2]
        by_cases c3 : r = 0x0C
        · subst c3; simp [unquoteLoop, unescape]
        · rw [if_neg c3]
          by_cases c4 : r = 0x0A
          · subst c4; simp [unquoteLoop, unescape]
          · rw [if_neg c4]
            by_cases c5 : r = 0x0D
            · subst c5; simp [unquoteLoop, unescape]
            · rw [if_neg c5]
              by_cases c6 : r = 0x09
              · subst c6; simp [unquoteLoop, unescape]
              · rw [if_neg c6]
                have hs : ¬ (0xD800 ≤ r ∧ r < 0xE000) := by omega
                simp [unquoteLoop, getu4_ascii r tail h, hs, encodeRune_ascii r h]
  · rw [if_neg hesc]
    simp only [needsEscape, Bool.or_eq_true, decide_eq_true_eq, not_or] at hesc
    obtain ⟨⟨⟨⟨⟨h1, h2⟩, h3⟩, h4⟩, h5⟩, h6⟩ := hesc
    simp [unquoteLoop, h1, h2, h3, h]

theorem unquoteLoop_rune (F : Nat) (r : Nat) (tail : Bytes) (hr : IsScalar r) :
    unquoteLoop (F + 1) (writtenRune r ++ tail) =
      prepend (encodeRune r) (unquoteLoop F tail) := by
  unfold writtenRune
  by_cases h : r < 0x80
  · rw [if_pos h, unquoteLoop_ascii F r tail h, encodeRune_ascii r h]
  · rw [if_neg h]
    by_cases hsep : r = 0x2028 ∨ r = 0x2029
    · rw [if_pos hsep]
      rcases hsep with hsep | hsep <;> subst hsep <;>
        simp [unquoteLoop, getu4, unhex, hex, encodeRune]
    · rw [if_neg hsep]
      have hdec := decodeRune_encodeRune r tail hr (by omega)
      obtain ⟨b, bs, hb, hb80, hlen⟩ := encodeRune_shape r (by omega)
      rw [hb] at hdec ⊢
      simp only [List.cons_append] at hdec ⊢
      have e1 : ¬ b = 0x22 := by omega
      have e2 : ¬ b = 0x5C := by omega
      have e3 : ¬ b < 0x20 := by omega
      have e4 : ¬ b < 0x80 := by omega
      simp only [unquoteLoop, e1, e2, e3, e4, if_false, hdec, List.length_cons]
      have hdrop : List.drop (bs.length + 1 - 1) (bs ++ tail) = tail := by
        simp
      rw [hdrop, hb]

/-- Reading back what the loop of `appendString` wrote for well-formed
UTF-8, up to the closing quote, gives the string back. -/
theorem unquoteLoop_appendStringLoop (runes : List Nat) (hr : ∀ r ∈ runes, IsScalar r) :
    ∀ (f F : Nat) (tail : Bytes), runes.length ≤ f →
      (appendStringLoop f (encodeRunes runes) ++ 0x22 :: tail).length ≤ F →
      unquoteLoop F (appendStringLoop f (encodeRunes runes) ++ 0x22 :: tail) =
        some (encodeRunes runes, tail) := by
  induction runes with
  | nil =>
    intro f F tail _ hF
    have h0 : appendStringLoop f (encodeRunes []) = [] := by
      cases f <;> simp [appendStringLoop, encodeRunes]
    rw [h0] at hF ⊢
    cases F with
    | zero => simp at hF
    | succ F => simp [unquoteLoop, encodeRunes]
  | cons r rs ih =>
    intro f F tail hf hF
    have hrs : ∀ x ∈ rs, IsScalar x := fun x hx => hr x (by simp [hx])
    have hsc : IsScalar r := hr r (by simp)
    cases f with
    | zero => simp at hf
    | succ f =>
      simp only [encodeRunes] at hF ⊢
      rw [appendStringLoop_rune f r _ hsc] at hF ⊢
      rw [List.append_assoc] at hF ⊢
      have hw : 1 ≤ (writtenRune r).length := by
        unfold writtenRune escapeASCII
        have := encodeRune_length_pos r
        split
        · split
          · split
            · simp
            · split
              · simp
              · split
                · simp
                · split
                  · simp
                  · split
                    · simp
                    · split <;> simp
          · simp
        · split
          · simp
          · exact this
      cases F with
      | zero =>
        simp only [List.length_append] at hF
        omega
      | succ F =>
        rw [unquoteLoop_rune F r _ hsc]
        rw [ih hrs f F tail (by simpa using hf) (by
          simp only [List.length_append] at hF ⊢
          omega)]
        rfl

/-- Round trip of a string: reading what `appendString` wrote for
well-formed UTF-8 gives the string back, and leaves what follows. -/
theorem parseString_appendString (s tail : Bytes) (hs : ValidUTF8 s) :
    parseString (appendString s ++ tail) = some (s, tail) := by
  obtain ⟨runes, hr, rfl⟩ := hs
  simp only [appendString, parseString, List.cons_append, if_true, List.append_assoc,
    List.singleton_append]
  exact unquoteLoop_appendStringLoop runes hr _ _ tail (length_le_encodeRunes runes) (le_refl _)

theorem formatBits_eq (n : Nat) : ∀ (fuel : Nat) (acc : Bytes), n < fuel →
    formatBits fuel n acc =
      if n < 10 then (48 + n) :: acc else formatBits (n / 10 + 1) (n / 10) [] ++ (48 + n % 10) :: acc := by
  induction n using Nat.strong_induction_on with
  | _ n ih =>
    intro fuel acc hf
    cases fuel with
    | zero => omega
    | succ fuel =>
      have e : formatBits (fuel + 1) n acc =
          if n < 10 then (48 + n) :: acc
          else formatBits fuel (n / 10) ((48 + n % 10) :: acc) := rfl
      rw [e]
      by_cases h : n < 10
      · simp [h]
      · simp only [h, if_false]
        have hlt : n / 10 < n := by omega
        rw [ih (n / 10) hlt fuel _ (by omega), ih (n / 10) hlt (n / 10 + 1) [] (by omega)]
        by_cases h2 : n / 10 < 10
        · simp [h2]
        · simp [h2]

theorem formatNat_small (n : Nat) (h : n < 10) : formatNat n = [48 + n] := by
  simp [formatNat, formatBits, h]

theorem formatNat_big (n : Nat) (h : 10 ≤ n) :
    formatNat n = formatNat (n / 10) ++ [48 + n % 10] := by
  unfold formatNat
  rw [formatBits_eq n (n + 1) [] (by omega), if_neg (by omega)]

theorem formatNat_head (n : Nat) :
    ∃ c rest, formatNat n = c :: rest ∧ 0x30 ≤ c ∧ c ≤ 0x39 ∧ (c = 0x30 → n = 0) := by
  induction n using Nat.strong_induction_on with
  | _ n ih =>
    by_cases h : n < 10
    · exact ⟨48 + n, [], formatNat_small n h, by omega, by omega, by omega⟩
    · obtain ⟨c, rest, hc, h1, h2, h3⟩ := ih (n / 10) (by omega)
      refine ⟨c, rest ++ [48 + n % 10], ?_, h1, h2, ?_⟩
      · rw [formatNat_big n (by omega), hc]
        rfl
      · intro hc0
        have := h3 hc0
        omega

theorem parseDigits_formatNat (n : Nat) : ∀ (acc : Nat) (tail : Bytes),
    parseDigits acc (formatNat n ++ tail) =
      parseDigits (acc * 10 ^ (formatNat n).length + n) tail := by
  induction n using Nat.strong_induction_on with
  | _ n ih =>
    intro acc tail
    by_cases h : n < 10
    · rw [formatNat_small n h]
      have hd : 0x30 ≤ 48 + n ∧ 48 + n ≤ 0x39 := by omega
      simp [parseDigits, hd]
    · rw [formatNat_big n (by omega), List.append_assoc, ih (n / 10) (by omega)]
      have hd : 0x30 ≤ 48 + n % 10 ∧ 48 + n % 10 ≤ 0x39 := by omega
      simp only [List.singleton_append, parseDigits, hd, and_self, if_true, List.length_append,
        List.length_singleton, pow_succ]
      congr 1
      have hmod : n / 10 * 10 + n % 10 = n := Nat.div_add_mod' n 10
      have e : 48 + n % 10 - 48 = n % 10 := by omega
      rw [e]
      calc (acc * 10 ^ (formatNat (n / 10)).length + n / 10) * 10 + n % 10
          = acc * (10 ^ (formatNat (n / 10)).length * 10) + (n / 10 * 10 + n % 10) := by ring
        _ = acc * (10 ^ (formatNat (n / 10)).length * 10) + n := by rw [hmod]

/-- Round trip of a natural number, in front of a byte that cannot continue
a number. -/
theorem parseNat_formatNat (n d : Nat) (more : Bytes)
    (hd : ¬ (0x30 ≤ d ∧ d ≤ 0x39)) (hd2 : ¬ (d = 0x2E ∨ d = 0x65 ∨ d = 0x45)) :
    parseNat (formatNat n ++ d :: more) = some (n, d :: more) := by
  obtain ⟨c, rest, hc, h1, h2, h3⟩ := formatNat_head n
  have hp := parseDigits_formatNat n 0 (d :: more)
  have hstop : parseDigits n (d :: more) = (n, d :: more) := by
    simp [parseDigits, hd]
  simp only [Nat.zero_mul, Nat.zero_add] at hp
  rw [hstop] at hp
  rw [hc] at hp ⊢
  simp only [List.cons_append] at hp ⊢
  have hdig : 0x30 ≤ c ∧ c ≤ 0x39 := ⟨h1, h2⟩
  simp only [parseNat, hdig, and_self, if_true, hp]
  have hzero : ¬ (c = 0x30 ∧ d :: more ≠ rest ++ d :: more) := by
    rintro ⟨hc0, hne⟩
    have hn := h3 hc0
    subst hn
    rw [formatNat_small 0 (by omega)] at hc
    simp only [List.cons.injEq] at hc
    apply hne
    rw [← hc.2]
    rfl
  rw [if_neg hzero]
  simp [hd2]

/-- Round trip of an integer, in front of a byte that cannot continue a
number. -/
theorem parseInt_appendInt (n : Int) (d : Nat) (more : Bytes)
    (hd : ¬ (0x30 ≤ d ∧ d ≤ 0x39)) (hd2 : ¬ (d = 0x2E ∨ d = 0x65 ∨ d = 0x45)) :
    parseInt (appendInt n ++ d :: more) = some (n, d :: more) := by
  unfold appendInt
  by_cases hneg : n < 0
  · rw [if_pos hneg]
    simp only [List.cons_append, parseInt, if_true, parseNat_formatNat _ d more hd hd2]
    congr 2
    omega
  · rw [if_neg hneg]
    obtain ⟨c, rest, hc, h1, h2, h3⟩ := formatNat_head n.natAbs
    have hp := parseNat_formatNat n.natAbs d more hd hd2
    rw [hc] at hp ⊢
    simp only [List.cons_append] at hp ⊢
    have hminus : ¬ c = 0x2D := by omega
    simp only [parseInt, hminus, if_false, hp]
    congr 2
    omega

theorem skipSpace_appendInt (n : Int) (tail : Bytes) :
    skipSpace (appendInt n ++ tail) = appendInt n ++ tail := by
  unfold appendInt
  by_cases hneg : n < 0
  · rw [if_pos hneg]
    simp [skipSpace]
  · rw [if_neg hneg]
    obtain ⟨c, rest, hc, h1, h2, h3⟩ := formatNat_head n.natAbs
    rw [hc]
    have hsp : ¬ (c = 0x20 ∨ c = 0x09 ∨ c = 0x0A ∨ c = 0x0D) := by omega
    simp [skipSpace, hsp]

theorem encodeRunes_ascii (s : Bytes) (h : ∀ c ∈ s, c < 0x80) : encodeRunes s = s := by
  induction s with
  | nil => rfl
  | cons c s ih =>
    have hc : c < 0x80 := h c (by simp)
    simp only [encodeRunes, encodeRune_ascii c hc, ih (fun d hd => h d (by simp [hd]))]
    rfl

/-- An ASCII string is well-formed UTF-8. -/
theorem validUTF8_ascii (s : Bytes) (h : ∀ c ∈ s, c < 0x80) : ValidUTF8 s := by
  refine ⟨s, ?_, (encodeRunes_ascii s h).symm⟩
  intro r hr
  have := h r hr
  unfold IsScalar
  omega

theorem skipSpace_appendString (s tail : Bytes) :
    skipSpace (appendString s ++ tail) = appendString s ++ tail := by
  simp [appendString, skipSpace]

theorem skipSpace_boolJSON (b : Bool) (tail : Bytes) :
    skipSpace (boolJSON b ++ tail) = boolJSON b ++ tail := by
  cases b <;> simp [boolJSON, lit, skipSpace]

theorem parseBool_boolJSON (b : Bool) (tail : Bytes) :
    parseBool (boolJSON b ++ tail) = some (b, tail) := by
  cases b <;> simp [boolJSON, lit, parseBool]

theorem skipSpace_punct (c : Nat) (X : Bytes)
    (hc : c = 0x3A ∨ c = 0x2C ∨ c = 0x7D ∨ c = 0x7B) : skipSpace (c :: X) = c :: X := by
  have h : ¬ (c = 0x20 ∨ c = 0x09 ∨ c = 0x0A ∨ c = 0x0D) := by omega
  simp only [skipSpace, h, if_false]

/-- One member of an object that is followed by another member. -/
theorem parseMembers_step {σ : Type} (field : σ → Bytes → Bytes → Option (σ × Bytes))
    (fuel : Nat) (st st1 : σ) (key v more : Bytes) (hkey : ValidUTF8 key)
    (hsp : skipSpace (v ++ 0x2C :: more) = v ++ 0x2C :: more)
    (hfield : field st key (v ++ 0x2C :: more) = some (st1, 0x2C :: more)) :
    parseMembers field (fuel + 1) st (appendString key ++ 0x3A :: (v ++ 0x2C :: more)) =
      parseMembers field fuel st1 more := by
  rw [parseMembers, skipSpace_appendString, parseString_appendString _ _ hkey]
  simp only [skipSpace_punct 0x3A _ (by decide), if_true, hsp, hfield,
    skipSpace_punct 0x2C _ (by decide)]

/-- The last member of an object. -/
theorem parseMembers_last {σ : Type} (field : σ → Bytes → Bytes → Option (σ × Bytes))
    (fuel : Nat) (st st1 : σ) (key v more : Bytes) (hkey : ValidUTF8 key)
    (hsp : skipSpace (v ++ 0x7D :: more) = v ++ 0x7D :: more)
    (hfield : field st key (v ++ 0x7D :: more) = some (st1, 0x7D :: more)) :
    parseMembers field (fuel + 1) st (appendString key ++ 0x3A :: (v ++ 0x7D :: more)) =
      some (st1, more) := by
  rw [parseMembers, skipSpace_appendString, parseString_appendString _ _ hkey]
  have hne : ¬ ((0x7D : Nat) = 0x2C) := by decide
  simp only [skipSpace_punct 0x3A _ (by decide), if_true, hsp, hfield,
    skipSpace_punct 0x7D _ (by decide), hne, if_false]

/-- An opening brace followed by a member: the members are read with the
length of the input as fuel. -/
theorem parseObject_open {σ : Type} (field : σ → Bytes → Bytes → Option (σ × Bytes))
    (st : σ) (key rest : Bytes) :
    parseObject field st (0x7B :: (appendString key ++ rest)) =
      parseMembers field (appendString key ++ rest).length st (appendString key ++ rest) := by
  unfold parseObject
  rw [skipSpace_punct 0x7B _ (by decide)]
  simp only [if_true]
  rw [skipSpace_appendString]
  have hr : appendString key ++ rest =
      0x22 :: (appendStringLoop key.length key ++ [0x22] ++ rest) := by
    simp [appendString]
  generalize appendString key ++ rest = r at hr ⊢
  subst hr
  have hne : ¬ ((0x22 : Nat) = 0x7D) := by decide
  simp only [hne, if_false]

theorem keys_valid :
    ValidUTF8 (lit "input") ∧ ValidUTF8 (lit "options") ∧
    ValidUTF8 (lit "targetEndpointFolderId") ∧ ValidUTF8 (lit "targetSchemaFolderId") ∧
    ValidUTF8 (lit "endpointOverwriteBehavior") ∧ ValidUTF8 (lit "schemaOverwriteBehavior") ∧
    ValidUTF8 (lit "updateFolderOfChangedEndpoint") ∧ ValidUTF8 (lit "prependBasePath") :=
  ⟨validUTF8_ascii _ (by decide), validUTF8_ascii _ (by decide), validUTF8_ascii _ (by decide),
   validUTF8_ascii _ (by decide), validUTF8_ascii _ (by decide), validUTF8_ascii _ (by decide),
   validUTF8_ascii _ (by decide), validUTF8_ascii _ (by decide)⟩

theorem optionsField_int1 (o : Options) (n : Int) (more : Bytes) :
    optionsField o (lit "targetEndpointFolderId") (appendInt n ++ 0x2C :: more) =
      some ({ o with TargetEndpointFolderID := n }, 0x2C :: more) := by
  simp [optionsField, parseInt_appendInt n 0x2C more (by decide) (by decide)]

theorem optionsField_int2 (o : Options) (n : Int) (more : Bytes) :
    optionsField o (lit "targetSchemaFolderId") (appendInt n ++ 0x2C :: more) =
      some ({ o with TargetSchemaFolderID := n }, 0x2C :: more) := by
  have h1 : ¬ (lit "targetSchemaFolderId" = lit "targetEndpointFolderId") := by decide
  simp [optionsField, h1, parseInt_appendInt n 0x2C more (by decide) (by decide)]

theorem optionsField_str1 (o : Options) (s : Bytes) (hs : ValidUTF8 s) (more : Bytes) :
    optionsField o (lit "endpointOverwriteBehavior") (appendString s ++ 0x2C :: more) =
      some ({ o with EndpointOverwriteBehavior := s }, 0x2C :: more) := by
  have h1 : ¬ (lit "endpointOverwriteBehavior" = lit "targetEndpointFolderId") := by decide
  have h2 : ¬ (lit "endpointOverwriteBehavior" = lit "targetSchemaFolderId") := by decide
  simp [optionsField, h1, h2, parseString_appendString _ _ hs]

theorem optionsField_str2 (o : Options) (s : Bytes) (hs : ValidUTF8 s) (more : Bytes) :
    optionsField o (lit "schemaOverwriteBehavior") (appendString s ++ 0x2C :: more) =
      some ({ o with SchemaOverwriteBehavior := s }, 0x2C :: more) := by
  have h1 : ¬ (lit "schemaOverwriteBehavior" = lit "targetEndpointFolderId") := by decide
  have h2 : ¬ (lit "schemaOverwriteBehavior" = lit "targetSchemaFolderId") := by decide
  have h3 : ¬ (lit "schemaOverwriteBehavior" = lit "endpointOverwriteBehavior") := by decide
  simp [optionsField, h1, h2, h3, parseString_appendString _ _ hs]

theorem optionsField_bool1 (o : Options) (b : Bool) (more : Bytes) :
    optionsField o (lit "updateFolderOfChangedEndpoint") (boolJSON b ++ 0x2C :: more) =
      some ({ o with UpdateFolderOfChangedEndpoint := b }, 0x2C :: more) := by
  have h1 : ¬ (lit "updateFolderOfChangedEndpoint" = lit "targetEndpointFolderId") := by decide
  have h2 : ¬ (lit "updateFolderOfChangedEndpoint" = lit "targetSchemaFolderId") := by decide
  have h3 : ¬ (lit "updateFolderOfChangedEndpoint" = lit "endpointOverwriteBehavior") := by
    decide
  have h4 : ¬ (lit "updateFolderOfChangedEndpoint" = lit "schemaOverwriteBehavior") := by decide
  simp [optionsField, h1, h2, h3, h4, parseBool_boolJSON]

theorem optionsField_bool2 (o : Options) (b : Bool) (more : Bytes) :
    optionsField o (lit "prependBasePath") (boolJSON b ++ 0x7D :: more) =
      some ({ o with PrependBasePath := b }, 0x7D :: more) := by
  have h1 : ¬ (lit "prependBasePath" = lit "targetEndpointFolderId") := by decide
  have h2 : ¬ (lit "prependBasePath" = lit "targetSchemaFolderId") := by decide
  have h3 : ¬ (lit "prependBasePath" = lit "endpointOverwriteBehavior") := by decide
  have h4 : ¬ (lit "prependBasePath" = lit "schemaOverwriteBehavior") := by decide
  have h5 : ¬ (lit "prependBasePath" = lit "updateFolderOfChangedEndpoint") := by decide
  simp [optionsField, h1, h2, h3, h4, h5, parseBool_boolJSON]

/-- Round trip of the struct `Options`. -/
theorem parseObject_optionsJSON (o st : Options) (tail : Bytes)
    (h3 : ValidUTF8 o.EndpointOverwriteBehavior) (h4 : ValidUTF8 o.SchemaOverwriteBehavior) :
    parseObject optionsField st (optionsJSON o ++ tail) = some (o, tail) := by
  obtain ⟨_, _, k1, k2, k3, k4, k5, k6⟩ := keys_valid
  unfold optionsJSON
  simp only [List.cons_append, List.append_assoc, List.singleton_append]
  rw [parseObject_open]
  generalize hfuel : List.length _ = fuel
  obtain ⟨m, rfl⟩ : ∃ m, fuel = m + 6 := by
    refine ⟨fuel - 6, ?_⟩
    simp only [List.length_append, List.length_cons, appendString] at hfuel
    omega
  rw [parseMembers_step optionsField _ st _ _ _ _ k1 (skipSpace_appendInt _ _)
    (optionsField_int1 _ _ _)]
  rw [parseMembers_step optionsField _ _ _ _ _ _ k2 (skipSpace_appendInt _ _)
    (optionsField_int2 _ _ _)]
  rw [parseMembers_step optionsField _ _ _ _ _ _ k3 (skipSpace_appendString _ _)
    (optionsField_str1 _ _ h3 _)]
  rw [parseMembers_step optionsField _ _ _ _ _ _ k4 (skipSpace_appendString _ _)
    (optionsField_str2 _ _ h4 _)]
  rw [parseMembers_step optionsField _ _ _ _ _ _ k5 (skipSpace_boolJSON _ _)
    (optionsField_bool1 _ _ _)]
  rw [parseMembers_last optionsField _ _ _ _ _ _ k6 (skipSpace_boolJSON _ _)
    (optionsField_bool2 _ _ _)]
  rfl

theorem payloadField_input (p : Payload) (s : Bytes) (hs : ValidUTF8 s) (more : Bytes) :
    payloadField p (lit "input") (appendString s ++ 0x2C :: more) =
      some ({ p with Input := s }, 0x2C :: more) := by
  simp [payloadField, parseString_appendString _ _ hs]

theorem payloadField_options (p : Payload) (o : Options) (more : Bytes)
    (h3 : ValidUTF8 o.EndpointOverwriteBehavior) (h4 : ValidUTF8 o.SchemaOverwriteBehavior) :
    payloadField p (lit "options") (optionsJSON o ++ 0x7D :: more) =
      some ({ p with Options := o }, 0x7D :: more) := by
  have h1 : ¬ (lit "options" = lit "input") := by decide
  simp [payloadField, h1, parseObject_optionsJSON o p.Options _ h3 h4]

theorem skipSpace_optionsJSON (o : Options) (tail : Bytes) :
    skipSpace (optionsJSON o ++ tail) = optionsJSON o ++ tail := by
  unfold optionsJSON
  rw [List.cons_append, skipSpace_punct 0x7B _ (by decide)]

/-- Round trip of the struct `Payload`: parsing its JSON text gives it
back, when its three strings are well-formed UTF-8. -/
theorem parsePayload_payloadMembersJSON (p : Payload) (h1 : ValidUTF8 p.Input)
    (h3 : ValidUTF8 p.Options.EndpointOverwriteBehavior)
    (h4 : ValidUTF8 p.Options.SchemaOverwriteBehavior) :
    parsePayload (payloadMembersJSON p) = some p := by
  obtain ⟨k1, k2, _⟩ := keys_valid
  unfold parsePayload payloadMembersJSON
  rw [parseObject_open]
  generalize hfuel : List.length _ = fuel
  obtain ⟨m, rfl⟩ : ∃ m, fuel = m + 2 := by
    refine ⟨fuel - 2, ?_⟩
    simp only [List.length_append, List.length_cons, appendString] at hfuel
    omega
  rw [parseMembers_step payloadField _ _ _ _ _ _ k1 (skipSpace_appendString _ _)
    (payloadField_input _ _ h1 _)]
  rw [parseMembers_last payloadField _ _ _ _ _ _ k2 (skipSpace_optionsJSON _ _)
    (payloadField_options _ _ _ h3 h4)]
  simp [skipSpace]

/-- The text that `json.Marshal` gives for a payload, member by member. -/
theorem jsonMarshal_members (p : Payload) :
    jsonMarshal p.toValue = .ok (payloadMembersJSON p) := by
  simp [jsonMarshal, marshalFields, Payload.toValue, Options.toValue, payloadMembersJSON,
    optionsJSON, boolJSON]

/-! ## The claims -/

/-- C1. When the call of `http.DefaultClient.Do` returns a response,
whatever its status code and whatever the bytes of its body, and the body
can be read to its end, then `request` returns nil. -/
theorem request_succeeds_for_any_status (w : World) (input : Bytes) (f : Flag)
    (req : Request) (resp : Response)
    (hsent : req ∈ sent (request w input f).trace)
    (hresp : w.Do req = .ok resp)
    (hbody : (ReadAll resp.Body).2 = none) :
    (request w input f).err = none := by
  obtain ⟨hreq, hu⟩ := mem_sent_request w input f req hsent
  subst hreq
  simp only [ReadAll] at hbody
  rw [request_eq]
  simp [hu, hresp, hbody]

/-- C1, at a concrete input: a server that answers 500 with a readable
body. -/
theorem request_succeeds_for_any_status_witness :
    (∃ resp, serverErrorWorld.Do (builtRequest sampleDocument sampleFlag) = .ok resp ∧
      resp.StatusCode = 500) ∧
    (request serverErrorWorld sampleDocument sampleFlag).err = none :=
  ⟨⟨_, rfl, rfl⟩,
   request_succeeds_for_any_status serverErrorWorld sampleDocument sampleFlag
     (builtRequest sampleDocument sampleFlag) _ (by decide) rfl rfl⟩

/-- C3. In a run of `main` that calls `read` on a file that cannot be read,
`main` logs the error of `read`, whose message is
`read swagger file (<path>): ` followed by the message of the file system's
error, which it wraps, and exits with status 1; `request` is never called:
`http.DefaultClient.Do` is not called and, over every network, the
transport is invoked zero times. -/
theorem main_read_failure (w : World) (f : Flag) (e : GoError)
    (hcall : Event.readFile f.file ∈ (main w f).trace)
    (hfail : w.ReadFile f.file = .error e) :
    (read w f.file).2 =
      .error (.wrap (lit "read swagger file (" ++ f.file ++ lit "): " ++ e.Error) e) ∧
    (main w f).trace =
      [.readFile f.file,
       .fatal (lit "read swagger file (" ++ f.file ++ lit "): " ++ e.Error)] ∧
    (main w f).status = 1 ∧
    sent (main w f).trace = [] ∧
    ∀ n, roundTrips n (main w f).trace = [] := by
  have hv : f.version = false := by
    cases hver : f.version with
    | false => rfl
    | true => simp [main, hver] at hcall
  simp [main, read, hv, hfail, errorf_read, GoError.Error, sent, roundTrips]

/-- C3, at a concrete input: the default file name in a world without
files. -/
theorem main_read_failure_witness :
    (main missingFileWorld sampleFlag).trace =
      [.readFile (lit "swagger.yaml"),
       .fatal (lit "read swagger file (swagger.yaml): open swagger.yaml: no such file or directory")] ∧
    (main missingFileWorld sampleFlag).status = 1 ∧
    sent (main missingFileWorld sampleFlag).trace = [] ∧
    ∀ n, roundTrips n (main missingFileWorld sampleFlag).trace = [] :=
  (main_read_failure missingFileWorld sampleFlag
    (.new (lit "open swagger.yaml: no such file or directory")) (by decide) rfl).2

/-- C4. For every project id, the URL that `request` builds is the fixed
head, the project id verbatim, and the fixed tail; every request handed to
`http.DefaultClient.Do` carries exactly that URL; for project id 12345 it is
`https://api.apifox.com/v1/projects/12345/import-openapi?locale=zh-CN`. -/
theorem request_url_verbatim (p : Bytes) (f : Flag) :
    requestAPI { f with projectID := p } =
      lit "https://api.apifox.com/v1/projects/" ++ p ++ lit "/import-openapi?locale=zh-CN" ∧
    (∀ w input req, req ∈ sent (request w input { f with projectID := p }).trace →
      req.URL =
        lit "https://api.apifox.com/v1/projects/" ++ p ++ lit "/import-openapi?locale=zh-CN") ∧
    requestAPI { f with projectID := lit "12345" } =
      lit "https://api.apifox.com/v1/projects/12345/import-openapi?locale=zh-CN" := by
  refine ⟨rfl, ?_, rfl⟩
  intro w input req hsent
  rw [(mem_sent_request w input _ req hsent).1]
  rfl

/-- C5. Every request that `request` hands to `http.DefaultClient.Do`, and
through it to the transport, is a POST whose
`Authorization` header is `Bearer ` followed by the token, whose
`X-Apifox-Api-Version` header is the API version, whose `Content-Type`
header is `application/json` (one value each), and whose body is the
payload as `json.Marshal` serialised it. -/
theorem request_method_headers_body (w : World) (input : Bytes) (f : Flag) (req : Request)
    (hsent : req ∈ sent (request w input f).trace) :
    req.Method = lit "POST" ∧
    Header.Values req.Header (lit "Authorization") = [lit "Bearer " ++ f.token] ∧
    Header.Get req.Header (lit "Authorization") = lit "Bearer " ++ f.token ∧
    Header.Values req.Header (lit "X-Apifox-Api-Version") = [f.apiVersion] ∧
    Header.Get req.Header (lit "X-Apifox-Api-Version") = f.apiVersion ∧
    Header.Values req.Header (lit "Content-Type") = [lit "application/json"] ∧
    Header.Get req.Header (lit "Content-Type") = lit "application/json" ∧
    jsonMarshal (requestData input f).toValue = .ok req.Body := by
  obtain ⟨hreq, _⟩ := mem_sent_request w input f req hsent
  subst hreq
  refine ⟨rfl, rfl, rfl, rfl, rfl, rfl, rfl, ?_⟩
  rw [jsonMarshal_payload]
  rfl

/-- C5, at a concrete input: with the token abc the client receives the
header `Authorization: Bearer abc`. -/
theorem request_method_headers_body_witness :
    builtRequest sampleDocument sampleFlag ∈
      sent (request serverErrorWorld sampleDocument sampleFlag).trace ∧
    Header.Get (builtRequest sampleDocument sampleFlag).Header (lit "Authorization") =
      lit "Bearer abc" :=
  ⟨by decide,
   (request_method_headers_body serverErrorWorld sampleDocument sampleFlag
     (builtRequest sampleDocument sampleFlag) (by decide)).2.2.1⟩

/-- C6. For every document text, when the six options hold the defaults
that `main` declares for their flags, the payload that `json.Marshal` gives,
and that every request handed to `http.DefaultClient.Do` carries as its
body, is the
`input` string followed by an `options` object with
`targetEndpointFolderId` 0, `targetSchemaFolderId` 0, both overwrite
behaviours `OVERWRITE_EXISTING` and both booleans false, under exactly
those field names. -/
theorem default_options_payload (input : Bytes) (f : Flag)
    (h1 : f.targetEndpointFolderId = defaultFlag.targetEndpointFolderId)
    (h2 : f.targetSchemaFolderId = defaultFlag.targetSchemaFolderId)
    (h3 : f.endpointOverwriteBehavior = defaultFlag.endpointOverwriteBehavior)
    (h4 : f.schemaOverwriteBehavior = defaultFlag.schemaOverwriteBehavior)
    (h5 : f.updateFolderOfChangedEndpoint = defaultFlag.updateFolderOfChangedEndpoint)
    (h6 : f.prependBasePath = defaultFlag.prependBasePath) :
    jsonMarshal (requestData input f).toValue =
      .ok (lit "\x7b\"input\":" ++ appendString input ++
        lit ",\"options\":\x7b\"targetEndpointFolderId\":0,\"targetSchemaFolderId\":0,\"endpointOverwriteBehavior\":\"OVERWRITE_EXISTING\",\"schemaOverwriteBehavior\":\"OVERWRITE_EXISTING\",\"updateFolderOfChangedEndpoint\":false,\"prependBasePath\":false\x7d\x7d") ∧
    ∀ w req, req ∈ sent (request w input f).trace →
      req.Body = lit "\x7b\"input\":" ++ appendString input ++
        lit ",\"options\":\x7b\"targetEndpointFolderId\":0,\"targetSchemaFolderId\":0,\"endpointOverwriteBehavior\":\"OVERWRITE_EXISTING\",\"schemaOverwriteBehavior\":\"OVERWRITE_EXISTING\",\"updateFolderOfChangedEndpoint\":false,\"prependBasePath\":false\x7d\x7d" := by
  refine ⟨?_, ?_⟩
  · rw [jsonMarshal_payload, payloadJSON_default input f h1 h2 h3 h4 h5 h6]
  · intro w req hsent
    rw [(mem_sent_request w input f req hsent).1]
    exact payloadJSON_default input f h1 h2 h3 h4 h5 h6

/-- C6, at a concrete input: the sample document under the default
options. -/
theorem default_options_payload_witness :
    jsonMarshal (requestData sampleDocument sampleFlag).toValue =
      .ok (lit "\x7b\"input\":\"openapi: 3.0.0\",\"options\":\x7b\"targetEndpointFolderId\":0,\"targetSchemaFolderId\":0,\"endpointOverwriteBehavior\":\"OVERWRITE_EXISTING\",\"schemaOverwriteBehavior\":\"OVERWRITE_EXISTING\",\"updateFolderOfChangedEndpoint\":false,\"prependBasePath\":false\x7d\x7d") :=
  (default_options_payload sampleDocument sampleFlag rfl rfl rfl rfl rfl rfl).1

/-- C7. When `http.DefaultClient.Do` returns a response whose body breaks
off (reading
it to the end returns an error), `request` returns an error whose message
is `read response: ` followed by the message of the read error, which it
wraps, whatever the status code and the verbose setting, and nothing is
printed. -/
theorem request_read_response_error (w : World) (input : Bytes) (f : Flag)
    (req : Request) (resp : Response) (e : GoError)
    (hsent : req ∈ sent (request w input f).trace)
    (hresp : w.Do req = .ok resp)
    (hbody : (ReadAll resp.Body).2 = some e) :
    (request w input f).err = some (.wrap (lit "read response: " ++ e.Error) e) ∧
    printed (request w input f).trace = [] := by
  obtain ⟨hreq, hu⟩ := mem_sent_request w input f req hsent
  subst hreq
  simp only [ReadAll] at hbody
  rw [request_eq]
  simp [hu, hresp, hbody, printed]

/-- C7, at a concrete input: a 200 response whose body ends with an
unexpected EOF, with the verbose flag set. -/
theorem request_read_response_error_witness :
    (request brokenBodyWorld sampleDocument { sampleFlag with verbose := true }).err =
      some (.wrap (lit "read response: unexpected EOF") (.new (lit "unexpected EOF"))) ∧
    printed (request brokenBodyWorld sampleDocument { sampleFlag with verbose := true }).trace
      = [] :=
  request_read_response_error brokenBodyWorld sampleDocument { sampleFlag with verbose := true }
    (builtRequest sampleDocument { sampleFlag with verbose := true }) _ _ (by decide) rfl rfl

/-- C8, as written, fails: the transport can be invoked more than once in
one call of `request`.  When the server answers the POST with status 307
and a `Location` header, the request object is built, `request` calls
`http.DefaultClient.Do` once, and inside that call the client gives the
transport two requests, both a POST with the payload as body; `request`
returns nil. -/
theorem request_transport_invoked_twice :
    NewRequest (clientWorld redirectNetwork serverErrorWorld) (lit "POST")
        (requestAPI sampleFlag) (payloadJSON (requestData sampleDocument sampleFlag)) =
      .ok { Method := lit "POST", URL := requestAPI sampleFlag, Header := [],
            Body := payloadJSON (requestData sampleDocument sampleFlag) } ∧
    (sent (request (clientWorld redirectNetwork serverErrorWorld)
      sampleDocument sampleFlag).trace).length = 1 ∧
    (roundTrips redirectNetwork (request (clientWorld redirectNetwork serverErrorWorld)
      sampleDocument sampleFlag).trace).length = 2 ∧
    (roundTrips redirectNetwork (request (clientWorld redirectNetwork serverErrorWorld)
      sampleDocument sampleFlag).trace).map (fun r => (r.Method, r.Body)) =
      [(lit "POST", payloadJSON (requestData sampleDocument sampleFlag)),
       (lit "POST", payloadJSON (requestData sampleDocument sampleFlag))] ∧
    (request (clientWorld redirectNetwork serverErrorWorld) sampleDocument sampleFlag).err =
      none := by
  refine ⟨rfl, ?_, ?_, ?_, ?_⟩ <;> decide

/-- C8, amended. There is no retry in `request`: a call of `request` calls
`http.DefaultClient.Do` at most once; exactly once when `http.NewRequest`
has built the request; not at all when encoding or request construction
fails; and when that one call fails, `request` returns an error whose
message is `request import: ` followed by the message of the error of the
call, which it wraps, without reading a response body. -/
theorem request_no_retry (w : World) (input : Bytes) (f : Flag) :
    (sent (request w input f).trace).length ≤ 1 ∧
    (∀ payloadBytes req0, jsonMarshal (requestData input f).toValue = .ok payloadBytes →
      NewRequest w (lit "POST") (requestAPI f) payloadBytes = .ok req0 →
      (sent (request w input f).trace).length = 1) ∧
    (∀ e, jsonMarshal (requestData input f).toValue = .error e →
      sent (request w input f).trace = []) ∧
    (∀ payloadBytes e, jsonMarshal (requestData input f).toValue = .ok payloadBytes →
      NewRequest w (lit "POST") (requestAPI f) payloadBytes = .error e →
      sent (request w input f).trace = []) ∧
    (∀ req e, req ∈ sent (request w input f).trace → w.Do req = .error e →
      (request w input f).err = some (.wrap (lit "request import: " ++ e.Error) e) ∧
      Event.readAll ∉ (request w input f).trace) := by
  refine ⟨?_, ?_, ?_, ?_, ?_⟩
  · rw [sent_request]
    cases w.ParseURL (requestAPI f) <;> simp
  · intro pb req0 _ hnr
    rw [NewRequest_post] at hnr
    rw [sent_request]
    cases hu : w.ParseURL (requestAPI f) with
    | some err => simp [hu] at hnr
    | none => simp
  · intro e he
    rw [jsonMarshal_payload] at he
    cases he
  · intro pb e _ hnr
    rw [NewRequest_post] at hnr
    rw [sent_request]
    cases hu : w.ParseURL (requestAPI f) with
    | some err => simp
    | none => simp [hu] at hnr
  · intro req e hsent hdo
    obtain ⟨hreq, hu⟩ := mem_sent_request w input f req hsent
    subst hreq
    rw [request_eq]
    simp [hu, hdo]

/-- C8, amended, at a concrete input: without a network
`http.DefaultClient.Do` is called once and `request` returns the wrapped
error of the call. -/
theorem request_no_retry_witness :
    (sent (request offlineWorld sampleDocument sampleFlag).trace).length = 1 ∧
    (request offlineWorld sampleDocument sampleFlag).err =
      some (.wrap (lit "request import: dial tcp: connection refused")
        (.new (lit "dial tcp: connection refused"))) ∧
    Event.readAll ∉ (request offlineWorld sampleDocument sampleFlag).trace :=
  ⟨by decide,
   (request_no_retry offlineWorld sampleDocument sampleFlag).2.2.2.2
     (builtRequest sampleDocument sampleFlag) _ (by decide) rfl⟩

/-- C9. Serialising the payload never fails, whatever the document text and
the configuration, and `request` never returns an error whose message
starts with `encode payload: `. -/
theorem encode_payload_unreachable (w : World) (input : Bytes) (f : Flag) :
    (∃ payloadBytes, jsonMarshal (requestData input f).toValue = .ok payloadBytes) ∧
    ∀ e, (request w input f).err = some e → ¬ (lit "encode payload: " <+: e.Error) := by
  refine ⟨⟨_, jsonMarshal_payload _⟩, ?_⟩
  intro e he
  rw [request_eq] at he
  cases hu : w.ParseURL (requestAPI f) with
  | some err =>
    simp only [hu, Option.some.injEq] at he
    subst he
    simp [GoError.Error, lit]
  | none =>
    simp only [hu] at he
    cases hd : w.Do (builtRequest input f) with
    | error err =>
      simp only [hd, Option.some.injEq] at he
      subst he
      simp [GoError.Error, lit]
    | ok resp1 =>
      cases hb : resp1.Body.err with
      | some err =>
        simp only [hd, hb, Option.some.injEq] at he
        subst he
        simp [GoError.Error, lit]
      | none => simp [hd, hb] at he

/-- C10. Whenever `http.DefaultClient.Do` returns a response, `request`
closes its
body exactly once, as the last thing it does, both when reading the body
succeeds (and `request` returns nil) and when it fails (and `request`
returns the `read response` error); when no response was obtained, no body
is closed. -/
theorem response_body_closed_once (w : World) (input : Bytes) (f : Flag) :
    (∀ req resp, req ∈ sent (request w input f).trace → w.Do req = .ok resp →
      closes (request w input f).trace = 1 ∧
      (request w input f).trace.getLast? = some .close ∧
      ((ReadAll resp.Body).2 = none → (request w input f).err = none) ∧
      (∀ e, (ReadAll resp.Body).2 = some e →
        (request w input f).err = some (.wrap (lit "read response: " ++ e.Error) e))) ∧
    ((∀ req resp, req ∈ sent (request w input f).trace → w.Do req ≠ .ok resp) →
      closes (request w input f).trace = 0) := by
  refine ⟨?_, ?_⟩
  · intro req resp hsent hdo
    obtain ⟨hreq, hu⟩ := mem_sent_request w input f req hsent
    subst hreq
    rw [request_eq]
    simp only [hu, hdo, ReadAll]
    cases hb : resp.Body.err with
    | some err => simp [closes]
    | none => cases hv : f.verbose <;> simp [closes]
  · intro hno
    have hs := sent_request w input f
    rw [request_eq]
    cases hu : w.ParseURL (requestAPI f) with
    | some err => simp [closes]
    | none =>
      simp only [hu] at hs ⊢
      cases hd : w.Do (builtRequest input f) with
      | error err => simp [closes]
      | ok resp1 =>
        exact absurd hd (hno _ resp1 (by rw [hs]; simp))

/-- C10, at concrete inputs: one close after a 500 response, one close after
a body that breaks off, none without a network. -/
theorem response_body_closed_once_witness :
    closes (request serverErrorWorld sampleDocument sampleFlag).trace = 1 ∧
    closes (request brokenBodyWorld sampleDocument sampleFlag).trace = 1 ∧
    closes (request offlineWorld sampleDocument sampleFlag).trace = 0 :=
  ⟨((response_body_closed_once serverErrorWorld sampleDocument sampleFlag).1
      (builtRequest sampleDocument sampleFlag) _ (by decide) rfl).1,
   ((response_body_closed_once brokenBodyWorld sampleDocument sampleFlag).1
      (builtRequest sampleDocument sampleFlag) _ (by decide) rfl).1,
   (response_body_closed_once offlineWorld sampleDocument sampleFlag).2
     (fun _ _ _ h => by cases h)⟩

/-- C2, as written, fails: a document that is the single byte 0xFF, which
is not well-formed UTF-8, is serialised as the escape of U+FFFD, and parsing
the body back gives the three bytes EF BF BD; the same happens to an option
string that holds the byte 0xFF. -/
theorem payload_round_trip_invalid_utf8 :
    jsonMarshal (requestData [0xFF] defaultFlag).toValue =
      .ok (payloadJSON (requestData [0xFF] defaultFlag)) ∧
    parsePayload (payloadJSON (requestData [0xFF] defaultFlag)) =
      some (requestData [0xEF, 0xBF, 0xBD] defaultFlag) ∧
    parsePayload (payloadJSON (requestData [0xFF] defaultFlag)) ≠
      some (requestData [0xFF] defaultFlag) ∧
    parsePayload (payloadJSON
        (requestData sampleDocument { defaultFlag with endpointOverwriteBehavior := [0xFF] })) ≠
      some (requestData sampleDocument { defaultFlag with endpointOverwriteBehavior := [0xFF] }) := by
  refine ⟨jsonMarshal_payload _, ?_, ?_, ?_⟩ <;> decide

/-- C2, amended. For every document text and configuration whose document
text and two overwrite-behaviour strings are well-formed UTF-8, serialising
the payload succeeds, and parsing the body back (the body that every request
handed to `http.DefaultClient.Do` carries) gives the document text as
`input` and the
six option values of the configuration. -/
theorem payload_round_trip (input : Bytes) (f : Flag) (hin : ValidUTF8 input)
    (he : ValidUTF8 f.endpointOverwriteBehavior) (hs : ValidUTF8 f.schemaOverwriteBehavior) :
    (∃ body, jsonMarshal (requestData input f).toValue = .ok body ∧
      parsePayload body =
        some
          { Input := input
            Options :=
              { TargetEndpointFolderID := f.targetEndpointFolderId
                TargetSchemaFolderID := f.targetSchemaFolderId
                EndpointOverwriteBehavior := f.endpointOverwriteBehavior
                SchemaOverwriteBehavior := f.schemaOverwriteBehavior
                UpdateFolderOfChangedEndpoint := f.updateFolderOfChangedEndpoint
                PrependBasePath := f.prependBasePath } }) ∧
    ∀ w req, req ∈ sent (request w input f).trace →
      parsePayload req.Body = some (requestData input f) := by
  have hrt : parsePayload (payloadMembersJSON (requestData input f)) =
      some (requestData input f) :=
    parsePayload_payloadMembersJSON (requestData input f) hin he hs
  have hsame : payloadJSON (requestData input f) = payloadMembersJSON (requestData input f) := by
    have h1 := jsonMarshal_payload (requestData input f)
    rw [jsonMarshal_members] at h1
    exact (Except.ok.inj h1).symm
  refine ⟨⟨_, jsonMarshal_members _, hrt⟩, ?_⟩
  intro w req hsent
  rw [(mem_sent_request w input f req hsent).1]
  show parsePayload (payloadJSON (requestData input f)) = _
  rw [hsame, hrt]

/-- C2, amended, at a concrete input: the sample document under the sample
configuration. -/
theorem payload_round_trip_witness :
    ValidUTF8 sampleDocument ∧
    ∃ body, jsonMarshal (requestData sampleDocument sampleFlag).toValue = .ok body ∧
      parsePayload body = some (requestData sampleDocument sampleFlag) :=
  ⟨validUTF8_ascii _ (by decide),
   (payload_round_trip sampleDocument sampleFlag (validUTF8_ascii _ (by decide))
     (validUTF8_ascii _ (by decide)) (validUTF8_ascii _ (by decide))).1⟩

end ApifoxImport
